import Mathlib

/-!
# Verification of the jwst-pure-parallel core

Shallow embedding of the constraint expression language and compiler
(`src/jwpure/query.py`), the sequence-number assigner
(`src/jwpure/analyze.py::Scenario._sequence_numbers`) and the allocation
engine (`src/jwpure/analyze.py::Scenario.allocate_slots`), together with
proofs settling the frozen claims about this program.

Python machine-level conventions used by the embedding:
* Python literal values that occur in constraints are modelled by `PyLit`
  (integers and strings, the two kinds exercised by the program).
* `repr(v)` is modelled by `PyLit.pyRepr` (decimal rendering for integers,
  single-quoted rendering for strings; escaping inside string literals is
  not modelled because the program never produces it).
* A constraint argument may be `None`, one of the four predicate classes,
  or any other object (the `TypeError` branch); the single inductive
  `PyObj` covers all of these so that `sql_from_constraint` can be
  translated clause by clause from the source.
-/

/-- A Python literal value as used in constraint expressions. -/
inductive PyLit where
  | int (n : Int)
  | str (s : String)
deriving DecidableEq

/-- The single-quote character, used by Python string repr. -/
def pyQuote : String := "\x27"

/-- Model of Python `repr` on the literals the program uses: integers render
in decimal, strings render single-quoted (no escaping needed here). -/
def PyLit.pyRepr : PyLit → String
  | .int n => toString n
  | .str s => pyQuote ++ s ++ pyQuote

/-- The `value` attribute of a `_BinaryPredicate`: a single literal for the
six comparison operators, a sequence of literals for `IN`. -/
inductive PyValue where
  | lit (l : PyLit)
  | list (vs : List PyLit)
deriving DecidableEq

/-- Python `', '.join`. -/
def joinComma (xs : List String) : String := String.intercalate ", " xs

/-- Model of `repr(constraint.value)` in the non-`IN` branch of the
compiler: a bare literal uses `PyLit.pyRepr`; a Python list renders
bracketed. -/
def PyValue.pyRepr : PyValue → String
  | .lit l => l.pyRepr
  | .list vs => "[" ++ joinComma (vs.map PyLit.pyRepr) ++ "]"

/-- Model of `', '.join(repr(v) for v in constraint.value)` in the `IN`
branch: iterating a list yields its elements, iterating a string yields its
characters, iterating an integer raises `TypeError`. -/
def PyValue.iterate : PyValue → Except String (List PyLit)
  | .list vs => .ok vs
  | .lit (.str s) => .ok (s.toList.map (fun ch => .str (String.mk [ch])))
  | .lit (.int _) => .error "TypeError: int object is not iterable"

/-- An argument to `sql_from_constraint`: `pyNone` is Python `None`,
the four predicate constructors mirror `_BinaryPredicate`,
`_TernaryPredicate`, `_UnaryPredicate` and `_LogicalPredicate`
(`args` mirrors the `*args` tuple), and `other` is any object outside the
closed variant set (the `TypeError` case). -/
inductive PyObj where
  | pyNone
  | binary (colname operator : String) (value : PyValue)
  | ternary (colname : String) (low high : PyLit)
  | unary (raw_sql : String)
  | logical (op : String) (args : List PyObj)
  | other (descr : String)

/-- Model of the truthiness-guarded scope test
`only_table and not name.startswith(f'{only_table}.')` used by every leaf
case of the compiler: `none` and the empty string are falsy. -/
def scopedOut (only_table : Option String) (name : String) : Bool :=
  match only_table with
  | none => false
  | some t => decide (t ≠ "") && !((t ++ ".").data.isPrefixOf name.data)

/-- The `vstr` computation of the `_BinaryPredicate` branch of the
compiler: `IN` joins the iterated values in parentheses, every other
operator takes `repr(constraint.value)`. -/
def binaryVstr (operator : String) (value : PyValue) : Except String String :=
  if operator = "IN" then
    match value.iterate with
    | .error e => .error e
    | .ok vs => .ok ("(" ++ joinComma (vs.map PyLit.pyRepr) ++ ")")
  else .ok value.pyRepr

/-- Wrap the compiled child of a `NOT` node:
`f'(NOT {sql})' if sql else ''`, propagating a raised error. -/
def notWrap : Except String String → Except String String
  | .error e => .error e
  | .ok sql => .ok (if sql ≠ "" then "(NOT " ++ sql ++ ")" else "")

/-- Combine the two compiled children of an `AND`/`OR` node:
both non-empty parenthesize, otherwise `left or right`, propagating a
raised error. -/
def combineWrap (op : String) :
    Except String String → Except String String → Except String String
  | .error e, _ => .error e
  | .ok _, .error e => .error e
  | .ok left, .ok right =>
      if left ≠ "" ∧ right ≠ "" then
        .ok ("(" ++ left ++ " " ++ op ++ " " ++ right ++ ")")
      else .ok (if left ≠ "" then left else right)

/-- Embedding of `jwpure.query.sql_from_constraint`.  Source order is kept:
the `None` test first, then the four `isinstance` branches, then the
`TypeError` raise, modelled as `Except.error`.  Indexing `args[0]` /
`args[1]` on a too-short tuple is the Python `IndexError`, also modelled as
`Except.error` (distinct message). -/
def sql_from_constraint (constraint : PyObj) (only_table : Option String) :
    Except String String :=
  match constraint with
  | .pyNone => .ok ""
  | .binary colname operator value =>
      if scopedOut only_table colname then .ok ""
      else
        match binaryVstr operator value with
        | .error e => .error e
        | .ok vstr => .ok (colname ++ " " ++ operator ++ " " ++ vstr)
  | .ternary colname low high =>
      if scopedOut only_table colname then .ok ""
      else .ok (colname ++ " BETWEEN " ++ low.pyRepr ++ " AND " ++ high.pyRepr)
  | .unary raw_sql =>
      if scopedOut only_table raw_sql then .ok ""
      else .ok raw_sql
  | .logical _ [] => .error "IndexError: tuple index out of range"
  | .logical op [a] =>
      if op = "NOT" then notWrap (sql_from_constraint a only_table)
      else .error "IndexError: tuple index out of range"
  | .logical op (a :: b :: _) =>
      if op = "NOT" then notWrap (sql_from_constraint a only_table)
      else combineWrap op (sql_from_constraint a only_table)
        (sql_from_constraint b only_table)
  | .other descr => .error ("Unknown constraint type: " ++ descr)

/-- Embedding of `jwpure.query.where_clause`. -/
def where_clause (constraint : PyObj) (only_table : Option String) :
    Except String String :=
  match sql_from_constraint constraint only_table with
  | .error e => .error e
  | .ok sql => .ok (if sql ≠ "" then "WHERE " ++ sql else "")

mutual
/-- `wf p` holds exactly for the trees producible by the public
constructors of the DSL: the six comparison operators and `isin`
(`IN` always carries an iterable value), `between`, the null-check
leaves, and `AND`/`OR`/`NOT` with their fixed arities. -/
def wf : PyObj → Bool
  | .pyNone => false
  | .binary _ operator value =>
      if operator = "IN" then
        match value with
        | .list _ => true
        | .lit (.str _) => true
        | .lit (.int _) => false
      else true
  | .ternary _ _ _ => true
  | .unary _ => true
  | .logical op args =>
      ((op = "NOT" && args.length = 1) ||
       ((op = "AND" || op = "OR") && args.length = 2)) && wfList args
  | .other _ => false

/-- `wf` on every element of an argument tuple. -/
def wfList : List PyObj → Bool
  | [] => true
  | a :: as => wf a && wfList as
end

/-! ## The sequence-number assigner (`Scenario._sequence_numbers`) -/

/-- One row of the transient `sequence_numbers` table: the three identifiers
plus the four assigned fields. -/
structure SeqRow where
  visit_id : String
  config_id : String
  slot_id : String
  pure_subset : Nat
  pure_visit : Nat
  pure_config : Nat
  pure_slot : Nat
deriving DecidableEq

/-- One loop iteration's counter update in `_sequence_numbers`: the
`if visit_id != prev_visit_id / elif config_id != prev_config_id / else`
ladder, returning the updated `(pure_visit, pure_config, pure_slot)`. -/
def seqStep (prev_visit_id prev_config_id : Option String)
    (pure_visit pure_config pure_slot : Nat) (visit_id config_id : String) :
    Nat × Nat × Nat :=
  if some visit_id ≠ prev_visit_id then (pure_visit + 1, 1, 1)
  else if some config_id ≠ prev_config_id then (pure_visit, pure_config + 1, 1)
  else (pure_visit, pure_config, pure_slot + 1)

/-- The row appended for one input triple: the truncation test
`pure_config > maxconfig or pure_slot > maxslot` selects the all-zero row,
otherwise the current subset index and counters are emitted. -/
def seqEmit (pure_subset maxslot maxconfig : Nat)
    (visit_id config_id slot_id : String) (st : Nat × Nat × Nat) : SeqRow :=
  if st.2.1 > maxconfig ∨ st.2.2 > maxslot then
    ⟨visit_id, config_id, slot_id, 0, 0, 0, 0⟩
  else
    ⟨visit_id, config_id, slot_id, pure_subset, st.1, st.2.1, st.2.2⟩

/-- The loop of `_sequence_numbers`, with the loop state (previous keys and
the three counters) made explicit. -/
def sequence_numbers_go (pure_subset maxslot maxconfig : Nat) :
    List (String × String × String) → Option String → Option String →
    Nat → Nat → Nat → List SeqRow
  | [], _, _, _, _, _ => []
  | (visit_id, config_id, slot_id) :: rest, pv, pc, cv, cc, cs =>
      let st := seqStep pv pc cv cc cs visit_id config_id
      seqEmit pure_subset maxslot maxconfig visit_id config_id slot_id st ::
        sequence_numbers_go pure_subset maxslot maxconfig rest
          (some visit_id) (some config_id) st.1 st.2.1 st.2.2

/-- Embedding of `Scenario._sequence_numbers(rows, maxslot, maxconfig)`:
previous keys start at `None`, all three counters start at 0, and
`self.pure_subset` is passed explicitly. -/
def sequence_numbers (pure_subset : Nat)
    (rows : List (String × String × String)) (maxslot maxconfig : Nat) :
    List SeqRow :=
  sequence_numbers_go pure_subset maxslot maxconfig rows none none 0 0 0

/-- The stream of counter triples `(pure_visit, pure_config, pure_slot)`
produced by the loop of `_sequence_numbers`, one per input row (the values
the loop holds when it emits that row's output). -/
def seqCounters :
    List (String × String × String) → Option String → Option String →
    Nat → Nat → Nat → List (Nat × Nat × Nat)
  | [], _, _, _, _, _ => []
  | (visit_id, config_id, _) :: rest, pv, pc, cv, cc, cs =>
      let st := seqStep pv pc cv cc cs visit_id config_id
      st :: seqCounters rest (some visit_id) (some config_id) st.1 st.2.1 st.2.2

/-- Number of positions `j ≥ 1` of the list at which the visit identifier
differs from the immediately preceding row's visit identifier. -/
def countVisitChanges : List (String × String × String) → Nat
  | [] => 0
  | [_] => 0
  | a :: b :: rest =>
      (if b.1 ≠ a.1 then 1 else 0) + countVisitChanges (b :: rest)

/-- Number of visit-run boundaries of the list, counted against an explicit
previous visit identifier (so the head of the list counts when it differs
from `prev`). -/
def visitBoundaries : Option String → List (String × String × String) → Nat
  | _, [] => 0
  | prev, t :: rest =>
      (if some t.1 ≠ prev then 1 else 0) + visitBoundaries (some t.1) rest

/-- The `pure_config` values of the non-truncated output rows of a given
visit. -/
def configVals (V : String) : List SeqRow → List Nat
  | [] => []
  | r :: out =>
      if r.visit_id = V ∧ r.pure_slot ≠ 0 then r.pure_config :: configVals V out
      else configVals V out

/-- The `pure_slot` values of the non-truncated output rows of a given
(visit, config) pair. -/
def slotVals (V C : String) : List SeqRow → List Nat
  | [] => []
  | r :: out =>
      if r.visit_id = V ∧ r.config_id = C ∧ r.pure_slot ≠ 0 then
        r.pure_slot :: slotVals V C out
      else slotVals V C out

/-- Position `i` of `rows` opens a new (visit, config) group, relative to
explicit previous keys: either `i = 0` and the previous keys differ from
row 0's keys, or row `i-1` differs from row `i` in visit or config. -/
def groupStartG (prev_visit_id prev_config_id : Option String)
    (rows : List (String × String × String)) : Nat → Prop
  | 0 => ∀ q, rows.get? 0 = some q →
      (prev_visit_id ≠ some q.1 ∨ prev_config_id ≠ some q.2.1)
  | i + 1 => ∃ p q, rows.get? i = some p ∧ rows.get? (i + 1) = some q ∧
      (p.1 ≠ q.1 ∨ p.2.1 ≠ q.2.1)

/-! ## Semantics of the generated filter clauses

`allocate_slots` hands the compiled clauses to an in-memory relational
store (an external collaborator per the spec).  The store's evaluation of a
compiled clause against a row is modelled by `evalScoped`, which mirrors
`sql_from_constraint` case for case: a leaf that the compiler drops under a
scope contributes no condition (`none`), a dropped side of `AND`/`OR`
leaves the other side alone, and an entirely empty clause means the table
is taken unfiltered (`where_clause` returns no `WHERE`).
Raw null-check predicates are evaluated by a caller-supplied `rawEval`
(none of the concrete runs below use them), and comparisons follow SQL
semantics on the integer and string literals the program uses. -/

/-- SQL `<` on the literal kinds the program uses (mixed-type comparisons
never occur in the modelled runs and are `false`). -/
def litLt : PyLit → PyLit → Bool
  | .int a, .int b => a < b
  | .str a, .str b => a < b
  | _, _ => false

/-- SQL `<=` on literals. -/
def litLe : PyLit → PyLit → Bool
  | .int a, .int b => a ≤ b
  | .str a, .str b => a ≤ b
  | _, _ => false

/-- Evaluate one binary comparison operator of the DSL on two literals. -/
def litCmp (operator : String) (a b : PyLit) : Bool :=
  if operator = "=" then a == b
  else if operator = "!=" then a != b
  else if operator = "<" then litLt a b
  else if operator = "<=" then litLe a b
  else if operator = ">" then litLt b a
  else if operator = ">=" then litLe b a
  else false

/-- Row environment: qualified column name to its value in the row. -/
def Env : Type := String → Option PyLit

/-- Scoped evaluation of a constraint tree against a row: `none` means the
compiled clause is empty under this scope (no condition), `some b` is the
truth value of the compiled clause. -/
def evalScoped (rawEval : String → Bool) (env : Env) :
    PyObj → Option String → Option Bool
  | .pyNone, _ => none
  | .binary colname operator value, only_table =>
      if scopedOut only_table colname then none
      else some (match env colname with
        | none => false
        | some a =>
            if operator = "IN" then
              match value with
              | .list vs => vs.contains a
              | .lit _ => false
            else
              match value with
              | .lit b => litCmp operator a b
              | .list _ => false)
  | .ternary colname low high, only_table =>
      if scopedOut only_table colname then none
      else some (match env colname with
        | none => false
        | some a => litLe low a && litLe a high)
  | .unary raw_sql, only_table =>
      if scopedOut only_table raw_sql then none
      else some (rawEval raw_sql)
  | .logical _ [], _ => none
  | .logical op [a], only_table =>
      if op = "NOT" then
        match evalScoped rawEval env a only_table with
        | none => none
        | some b => some (!b)
      else none
  | .logical op (a :: b :: _), only_table =>
      if op = "NOT" then
        match evalScoped rawEval env a only_table with
        | none => none
        | some b => some (!b)
      else
        match evalScoped rawEval env a only_table,
              evalScoped rawEval env b only_table with
        | some x, some y => some (if op = "AND" then x && y else x || y)
        | some x, none => some x
        | none, some y => some y
        | none, none => none
  | .other _, _ => none

/-- A row passes a (possibly empty) compiled filter: no clause keeps every
row, matching `where_clause` producing no `WHERE` for an empty clause. -/
def passesWhere (b : Option Bool) : Bool := b.getD true

/-! ## The allocation engine (`Scenario.allocate_slots`) -/

/-- One row of the `slot` table: identifiers, the domain column used by the
concrete constraints (`slotdur`), and the four allocation-state columns. -/
structure Slot where
  slot_id : String
  visit_id : String
  config_id : String
  slotdur : Int
  pure_subset : Nat
  pure_visit : Nat
  pure_config : Nat
  pure_slot : Nat
deriving DecidableEq

/-- One row of the transient `config` table built by step 2. -/
structure ConfigRow where
  visit_id : String
  config_id : String
  nslot : Nat
  configdur : Int
deriving DecidableEq

/-- One row of the transient `visit` table built by step 3. -/
structure VisitRow where
  visit_id : String
  nconfig : Nat
deriving DecidableEq

/-- Environment of a `slot` row. -/
def slotEnv (s : Slot) : Env := fun n =>
  if n = "slot.slot_id" then some (.str s.slot_id)
  else if n = "slot.visit_id" then some (.str s.visit_id)
  else if n = "slot.config_id" then some (.str s.config_id)
  else if n = "slot.slotdur" then some (.int s.slotdur)
  else if n = "slot.pure_subset" then some (.int s.pure_subset)
  else if n = "slot.pure_visit" then some (.int s.pure_visit)
  else if n = "slot.pure_config" then some (.int s.pure_config)
  else if n = "slot.pure_slot" then some (.int s.pure_slot)
  else none

/-- Environment of a `config` row. -/
def configEnv (c : ConfigRow) : Env := fun n =>
  if n = "config.visit_id" then some (.str c.visit_id)
  else if n = "config.config_id" then some (.str c.config_id)
  else if n = "config.nslot" then some (.int c.nslot)
  else if n = "config.configdur" then some (.int c.configdur)
  else none

/-- Environment of a `visit` row. -/
def visitEnv (w : VisitRow) : Env := fun n =>
  if n = "visit.visit_id" then some (.str w.visit_id)
  else if n = "visit.nconfig" then some (.int w.nconfig)
  else none

/-- Environment of a joined (slot, config, visit) row. -/
def jointEnv (s : Slot) (c : ConfigRow) (w : VisitRow) : Env := fun n =>
  match slotEnv s n with
  | some v => some v
  | none => match configEnv c n with
    | some v => some v
    | none => visitEnv w n

/-- First-occurrence deduplication, giving the grouping keys of a
`GROUP BY`. -/
def dedupKeys {α : Type} [BEq α] (l : List α) : List α :=
  l.foldl (fun acc k => if acc.contains k then acc else acc ++ [k]) []

/-- Step 2 of `allocate_slots`: `CREATE TABLE config AS SELECT visit_id,
config_id, COUNT(*) nslot, SUM(slotdur) configdur FROM slot {where_slot}
GROUP BY visit_id, config_id`, where `where_slot` is the combined
constraint compiled with scope `slot`. -/
def buildConfig (rawEval : String → Bool) (combined : PyObj)
    (slots : List Slot) : List ConfigRow :=
  let sel := slots.filter
    (fun s => passesWhere (evalScoped rawEval (slotEnv s) combined (some "slot")))
  (dedupKeys (sel.map (fun s => (s.visit_id, s.config_id)))).map
    (fun k =>
      let grp := sel.filter (fun s => s.visit_id == k.1 && s.config_id == k.2)
      ⟨k.1, k.2, grp.length, (grp.map (fun s => s.slotdur)).sum⟩)

/-- Step 3 of `allocate_slots`: `CREATE TABLE visit AS SELECT visit_id,
COUNT(*) nconfig FROM config {where_config} GROUP BY visit_id`, where
`where_config` is the caller's constraint compiled with scope `config`. -/
def buildVisit (rawEval : String → Bool) (constraint : PyObj)
    (configs : List ConfigRow) : List VisitRow :=
  let sel := configs.filter
    (fun c => passesWhere (evalScoped rawEval (configEnv c) constraint (some "config")))
  (dedupKeys (sel.map (fun c => c.visit_id))).map
    (fun v => ⟨v, (sel.filter (fun c => c.visit_id == v)).length⟩)

/-- Step 4 of `allocate_slots`: `CREATE TABLE subset AS SELECT
visit.visit_id, config.config_id, slot.slot_id FROM slot JOIN config ON
config.config_id = slot.config_id JOIN visit ON visit.visit_id =
slot.visit_id {where_joint}`, where `where_joint` is the caller's
constraint compiled unscoped.  Note the config join condition matches
`config_id` only. -/
def buildSubset (rawEval : String → Bool) (constraint : PyObj)
    (slots : List Slot) (configs : List ConfigRow) (visits : List VisitRow) :
    List (String × String × String) :=
  slots.flatMap (fun s => configs.flatMap (fun c => visits.filterMap (fun w =>
    if c.config_id == s.config_id && w.visit_id == s.visit_id &&
       passesWhere (evalScoped rawEval (jointEnv s c w) constraint none)
    then some (w.visit_id, c.config_id, s.slot_id) else none)))

/-- Codepoint-wise list comparison underlying the `ORDER BY slot_id`
collation (SQLite BINARY collation on the ASCII identifiers used here). -/
def charListLe : List Char → List Char → Bool
  | [], _ => true
  | _ :: _, [] => false
  | x :: xs, y :: ys =>
      if x.toNat < y.toNat then true
      else if y.toNat < x.toNat then false
      else charListLe xs ys

/-- String comparison for `ORDER BY slot_id`. -/
def strLe (a b : String) : Bool := charListLe a.data b.data

/-- Insert a triple into a list sorted by ascending `slot_id`. -/
def insertBySlot (t : String × String × String) :
    List (String × String × String) → List (String × String × String)
  | [] => [t]
  | u :: us => if strLe t.2.2 u.2.2 then t :: u :: us else u :: insertBySlot t us

/-- `ORDER BY slot_id` on the fetched subset triples. -/
def sortBySlot (l : List (String × String × String)) :
    List (String × String × String) :=
  l.foldr insertBySlot []

/-- The mutable state of a `Scenario`: the `slot` table and the subset
counter `self.pure_subset`. -/
structure ScenState where
  slots : List Slot
  pure_subset : Nat
deriving DecidableEq

/-- The `slot.pure_subset == 0` predicate built in `allocate_slots`
("available" slots). -/
def availablePred : PyObj := .binary "slot.pure_subset" "=" (.lit (.int 0))

/-- `constraint & available`, as built by `_Expression.__and__`. -/
def withAvailable (constraint : PyObj) : PyObj :=
  .logical "AND" [constraint, availablePred]

/-- The subset table built during one pass of `allocate_slots` from the
current state (steps 2-4). -/
def allocSubset (rawEval : String → Bool) (st : ScenState)
    (constraint : PyObj) : List (String × String × String) :=
  buildSubset rawEval constraint st.slots
    (buildConfig rawEval (withAvailable constraint) st.slots)
    (buildVisit rawEval constraint
      (buildConfig rawEval (withAvailable constraint) st.slots))

/-- Embedding of `Scenario.allocate_slots`: increment the subset counter,
build the transient tables, assign sequence numbers to the subset triples
ordered by `slot_id`, and write the four fields back into every slot whose
`slot_id` occurs in `subset` (looked up by `slot_id` in the
`sequence_numbers` table). -/
def allocate_slots (rawEval : String → Bool) (st : ScenState)
    (constraint : PyObj) (maxslot maxconfig : Nat) : ScenState :=
  let sub := st.pure_subset + 1
  let subset := allocSubset rawEval st constraint
  let rows := sortBySlot subset
  let sn := sequence_numbers sub rows maxslot maxconfig
  let slots' := st.slots.map (fun s =>
    if subset.any (fun t => t.2.2 == s.slot_id) then
      (match sn.find? (fun r => r.slot_id == s.slot_id) with
       | some r =>
          { s with
            pure_subset := r.pure_subset
            pure_visit := r.pure_visit
            pure_config := r.pure_config
            pure_slot := r.pure_slot }
       | none => s)
    else s)
  ⟨slots', sub⟩

/-- The three-way join as claim C2 words it: the config row must match the
slot row on BOTH `config_id` and `visit_id` (the source joins on
`config_id` only).  Second definition for the refinement comparison. -/
def buildSubsetBothKeys (rawEval : String → Bool) (constraint : PyObj)
    (slots : List Slot) (configs : List ConfigRow) (visits : List VisitRow) :
    List (String × String × String) :=
  slots.flatMap (fun s => configs.flatMap (fun c => visits.filterMap (fun w =>
    if c.config_id == s.config_id && c.visit_id == s.visit_id &&
       w.visit_id == s.visit_id &&
       passesWhere (evalScoped rawEval (jointEnv s c w) constraint none)
    then some (w.visit_id, c.config_id, s.slot_id) else none)))

/-- `rawEval` for runs that use no null-check predicate. -/
def rawFalse : String → Bool := fun _ => false

/-- The constraint `slot.slotdur > 0` used by the concrete runs. -/
def durPositive : PyObj := .binary "slot.slotdur" ">" (.lit (.int 0))

/-- Initial state of the two-pass run for claim C1: two slots of one
(visit, config) group, nothing claimed. -/
def c1State0 : ScenState :=
  ⟨[⟨"s1", "V", "C", 100, 0, 0, 0, 0⟩, ⟨"s2", "V", "C", 100, 0, 0, 0, 0⟩], 0⟩

/-- State after pass 1 with `maxslot = 1`. -/
def c1State1 : ScenState := allocate_slots rawFalse c1State0 durPositive 1 999

/-- State after pass 2 with the same constraint and caps. -/
def c1State2 : ScenState := allocate_slots rawFalse c1State1 durPositive 1 999

/-- Slot table exhibiting the C2 join divergence: `s1` is already claimed,
`s2` shares `s1`'s `config_id` in a different visit, and `s3` keeps
`s1`'s visit alive in the `visit` table. -/
def c2Slots : List Slot :=
  [⟨"s1", "V1", "C", 100, 1, 1, 1, 1⟩,
   ⟨"s2", "V2", "C", 100, 0, 0, 0, 0⟩,
   ⟨"s3", "V1", "D", 100, 0, 0, 0, 0⟩]

/-- The config table of the C2 pass. -/
def c2Configs : List ConfigRow := buildConfig rawFalse (withAvailable durPositive) c2Slots

/-- The visit table of the C2 pass. -/
def c2Visits : List VisitRow := buildVisit rawFalse durPositive c2Configs

/-- Model of the `DatabaseColumn` value object of `jwpure.query`. -/
structure DatabaseColumn where
  tablename : String
  colname : String
  name : String

/-- `DatabaseColumn.__init__`: the qualified name is
`f'{tablename}.{colname}'` when a table name is given. -/
def mkDatabaseColumn (colname tablename : String) : DatabaseColumn :=
  ⟨tablename, colname,
   if tablename ≠ "" then tablename ++ "." ++ colname else colname⟩

/-- `DatabaseColumn.isin`: builds `_BinaryPredicate(self.name, 'IN', values)`. -/
def DatabaseColumn.isin (col : DatabaseColumn) (values : List PyLit) : PyObj :=
  .binary col.name "IN" (.list values)

/-- `okB e` holds when the compiler run `e` did not raise. -/
def okB : Except String String → Bool
  | .ok _ => true
  | .error _ => false

/-- Input rows for the two-run instance of claim C8: visit `A` occurs in
two non-adjacent runs. -/
def c8Rows : List (String × String × String) :=
  [("A", "c1", "s1"), ("B", "c2", "s2"), ("A", "c3", "s3")]

/-- Clauses whose every rendered leaf is qualified to table `T`: the empty
clause, a leaf rendering beginning with `T.`, a `NOT` of a non-empty such
clause, and a parenthesized combination of two non-empty such clauses. -/
inductive ScopedClause (T : String) : String → Prop
  | empty : ScopedClause T ""
  | leaf (s : String) :
      (T ++ ".").data.isPrefixOf s.data = true → ScopedClause T s
  | notClause (s : String) : ScopedClause T s → s ≠ "" →
      ScopedClause T ("(NOT " ++ s ++ ")")
  | binClause (op l r : String) : ScopedClause T l → ScopedClause T r →
      l ≠ "" → r ≠ "" → ScopedClause T ("(" ++ l ++ " " ++ op ++ " " ++ r ++ ")")

/-! ## Behaviour of the embedding on concrete inputs -/

example : sql_from_constraint (.binary "slot.slotdur" ">" (.lit (.int 0))) (some "slot") =
    .ok "slot.slotdur > 0" := rfl

example : sql_from_constraint (.binary "config.nslot" ">=" (.lit (.int 3))) (some "slot") =
    .ok "" := rfl

example : sql_from_constraint
    (.logical "AND" [.binary "slot.inst" "!=" (.lit (.str "NIRCam")),
                     .binary "config.nslot" ">=" (.lit (.int 3))]) (some "slot") =
    .ok ("slot.inst != " ++ pyQuote ++ "NIRCam" ++ pyQuote) := rfl

example : sql_from_constraint (.binary "slot.inst" "IN" (.list [])) none =
    .ok "slot.inst IN ()" := rfl

example : sequence_numbers 1 [("V","C","s1"),("V","C","s2"),("V","C","s3"),
    ("V","D","s4")] 2 999 =
    [⟨"V","C","s1",1,1,1,1⟩, ⟨"V","C","s2",1,1,1,2⟩, ⟨"V","C","s3",0,0,0,0⟩,
     ⟨"V","D","s4",1,1,2,1⟩] := rfl

example : sequence_numbers 1 [("A","c1","s1"),("B","c2","s2"),("A","c3","s3")] 999 999 =
    [⟨"A","c1","s1",1,1,1,1⟩, ⟨"B","c2","s2",1,2,1,1⟩, ⟨"A","c3","s3",1,3,1,1⟩] := rfl

/-! ## Small facts about one assigner step -/

theorem seqStep_slot_pos (pv pc : Option String) (cv cc cs : Nat) (v c : String) :
    1 ≤ (seqStep pv pc cv cc cs v c).2.2 := by
  unfold seqStep; split_ifs <;> simp

theorem seqStep_config_pos (pv pc : Option String) (cv cc cs : Nat) (v c : String)
    (h : pv = none ∨ 1 ≤ cc) : 1 ≤ (seqStep pv pc cv cc cs v c).2.1 := by
  unfold seqStep
  split_ifs with h1 h2
  · simp
  · simp
  · rcases h with h | h
    · exact absurd (h ▸ h1) (by simp)
    · simpa using h

theorem seqStep_visit_pos (pv pc : Option String) (cv cc cs : Nat) (v c : String)
    (h : pv = none ∨ 1 ≤ cv) : 1 ≤ (seqStep pv pc cv cc cs v c).1 := by
  unfold seqStep
  split_ifs with h1 h2
  · simp
  all_goals
    rcases h with h | h
    · exact absurd (h ▸ h1) (by simp)
    · simpa using h

theorem seq_go_length (sub ms mc : Nat) (rows : List (String × String × String)) :
    ∀ pv pc cv cc cs,
      (sequence_numbers_go sub ms mc rows pv pc cv cc cs).length = rows.length := by
  induction rows with
  | nil => intro pv pc cv cc cs; rfl
  | cons hd tl ih =>
      intro pv pc cv cc cs
      obtain ⟨v, c, s⟩ := hd
      simp [sequence_numbers_go, ih]

/-! ## Claim C9 -/

theorem seq_go_zero_cap (sub ms mc : Nat) (hz : ms = 0 ∨ mc = 0)
    (rows : List (String × String × String)) :
    ∀ pv pc cv cc cs, (pv = none ∨ 1 ≤ cc) →
      ∀ r ∈ sequence_numbers_go sub ms mc rows pv pc cv cc cs,
        r.pure_subset = 0 ∧ r.pure_visit = 0 ∧ r.pure_config = 0 ∧ r.pure_slot = 0 := by
  induction rows with
  | nil => intro pv pc cv cc cs _ r hr; simp [sequence_numbers_go] at hr
  | cons hd tl ih =>
      intro pv pc cv cc cs hcc r hr
      obtain ⟨v, c, s⟩ := hd
      simp only [sequence_numbers_go, List.mem_cons] at hr
      have htr : (seqStep pv pc cv cc cs v c).2.1 > mc ∨
          (seqStep pv pc cv cc cs v c).2.2 > ms := by
        rcases hz with hz | hz
        · right; rw [hz]; exact seqStep_slot_pos pv pc cv cc cs v c
        · left; rw [hz]; exact seqStep_config_pos pv pc cv cc cs v c hcc
      rcases hr with hr | hr
      · subst hr; simp [seqEmit, htr]
      · exact ih (some v) (some c) _ _ _
          (Or.inr (seqStep_config_pos pv pc cv cc cs v c hcc)) r hr

/-- Claim C9: with a zero cap (`maxslot = 0` or `maxconfig = 0`) every
output row of the sequence-number assigner is fully truncated: all four
assigned fields are 0, so the pass claims no slots. -/
theorem zero_cap_truncates_all (sub ms mc : Nat)
    (rows : List (String × String × String)) (hz : ms = 0 ∨ mc = 0) :
    ∀ r ∈ sequence_numbers sub rows ms mc,
      r.pure_subset = 0 ∧ r.pure_visit = 0 ∧ r.pure_config = 0 ∧ r.pure_slot = 0 :=
  seq_go_zero_cap sub ms mc hz rows none none 0 0 0 (Or.inl rfl)

/-- Witness for C9 at a concrete input. -/
theorem zero_cap_truncates_all_witness :
    (0 = 0 ∨ 999 = 0) ∧
      ((⟨"V", "C", "s1", 0, 0, 0, 0⟩ : SeqRow).pure_subset = 0 ∧
       (⟨"V", "C", "s1", 0, 0, 0, 0⟩ : SeqRow).pure_visit = 0 ∧
       (⟨"V", "C", "s1", 0, 0, 0, 0⟩ : SeqRow).pure_config = 0 ∧
       (⟨"V", "C", "s1", 0, 0, 0, 0⟩ : SeqRow).pure_slot = 0) :=
  ⟨Or.inl rfl,
   zero_cap_truncates_all 1 0 999 [("V", "C", "s1")] (Or.inl rfl)
     ⟨"V", "C", "s1", 0, 0, 0, 0⟩ (by decide)⟩

/-! ## Claim C5 -/

/-- Claim C5: compiling `(A AND B)` (resp. `OR`) scoped to a table `T`
returns `compile(A, T)` alone when `compile(B, T)` is empty, `compile(B, T)`
alone when `compile(A, T)` is empty, the parenthesized combination when both
are non-empty, and the empty string when both are empty. -/
theorem and_or_scoping (A B : PyObj) (T op la lb : String)
    (hop : op = "AND" ∨ op = "OR")
    (hA : sql_from_constraint A (some T) = .ok la)
    (hB : sql_from_constraint B (some T) = .ok lb) :
    sql_from_constraint (.logical op [A, B]) (some T) =
      .ok (if la = "" then lb else if lb = "" then la
           else "(" ++ la ++ " " ++ op ++ " " ++ lb ++ ")") := by
  have hne : ¬ op = "NOT" := by
    rcases hop with h | h <;> subst h <;> decide
  simp only [sql_from_constraint, if_neg hne, hA, hB, combineWrap]
  by_cases h1 : la = "" <;> by_cases h2 : lb = "" <;> simp [h1, h2]

/-- Witness for C5 at a concrete input: the `config` term vanishes under
the `slot` scope and the slot term is returned alone. -/
theorem and_or_scoping_witness :
    sql_from_constraint
        (.logical "AND" [.binary "slot.slotdur" ">" (.lit (.int 0)),
                         .binary "config.nslot" ">=" (.lit (.int 3))])
        (some "slot") =
      .ok (if "slot.slotdur > 0" = "" then "" else
           if "" = "" then "slot.slotdur > 0"
           else "(" ++ "slot.slotdur > 0" ++ " " ++ "AND" ++ " " ++ "" ++ ")") :=
  and_or_scoping (.binary "slot.slotdur" ">" (.lit (.int 0)))
    (.binary "config.nslot" ">=" (.lit (.int 3))) "slot" "AND"
    "slot.slotdur > 0" "" (Or.inl rfl) rfl rfl

/-! ## Claim C10 -/

/-- Claim C10: a membership predicate over the empty sequence compiles to
the non-empty clause `<col> IN ()` — no error, and not the empty string —
under every scope that leaves the leaf visible. -/
theorem isin_empty_compiles (col : DatabaseColumn) (t : Option String)
    (h : scopedOut t col.name = false) :
    sql_from_constraint (col.isin []) t = .ok (col.name ++ " IN ()") ∧
      col.name ++ " IN ()" ≠ "" := by
  constructor
  · simp only [sql_from_constraint, DatabaseColumn.isin, h, binaryVstr,
      PyValue.iterate, joinComma, Bool.false_eq_true, if_false, reduceIte,
      Except.ok.injEq]
    simp only [String.append_assoc]
    rfl
  · intro hc
    have hlen := congrArg String.length hc
    simp [String.length_append] at hlen
    exact absurd hlen.2 (by decide)

/-- Witness for C10 at a concrete column and scope. -/
theorem isin_empty_compiles_witness :
    sql_from_constraint ((mkDatabaseColumn "inst" "slot").isin []) (some "slot") =
        .ok ((mkDatabaseColumn "inst" "slot").name ++ " IN ()") ∧
      (mkDatabaseColumn "inst" "slot").name ++ " IN ()" ≠ "" :=
  isin_empty_compiles (mkDatabaseColumn "inst" "slot") (some "slot") rfl

/-! ## Claim C7 -/

theorem okB_exists {e : Except String String} (h : okB e = true) :
    ∃ s, e = .ok s := by
  cases e with
  | ok s => exact ⟨s, rfl⟩
  | error e => simp [okB] at h

theorem okB_notWrap {e : Except String String} (h : okB e = true) :
    okB (notWrap e) = true := by
  cases e <;> simp_all [okB, notWrap]

theorem okB_combineWrap (op : String) {e1 e2 : Except String String}
    (h1 : okB e1 = true) (h2 : okB e2 = true) :
    okB (combineWrap op e1 e2) = true := by
  cases e1 <;> cases e2 <;> simp_all [okB, combineWrap]
  split_ifs <;> simp [okB]

theorem wf_no_error : ∀ (p : PyObj) (t : Option String), wf p = true →
    okB (sql_from_constraint p t) = true
  | .pyNone, _, _ => rfl
  | .binary c operator v, t, h => by
      simp only [sql_from_constraint]
      by_cases hs : scopedOut t c
      · simp [hs, okB]
      · simp only [hs, Bool.false_eq_true, if_false]
        have hv : ∃ vs, binaryVstr operator v = .ok vs := by
          by_cases hin : operator = "IN"
          · subst hin
            simp only [wf, if_pos rfl] at h
            match v, h with
            | .list vs, _ =>
                exact ⟨"(" ++ joinComma (vs.map PyLit.pyRepr) ++ ")", rfl⟩
            | .lit (.str str0), _ =>
                exact ⟨"(" ++ joinComma ((str0.toList.map
                  (fun ch => PyLit.str (String.mk [ch]))).map PyLit.pyRepr) ++ ")", rfl⟩
            | .lit (.int n), h => exact absurd h (by simp)
          · exact ⟨v.pyRepr, by simp [binaryVstr, hin]⟩
        obtain ⟨vs, hvs⟩ := hv
        simp [hvs, okB]
  | .ternary c lo hi, t, _ => by
      simp only [sql_from_constraint]
      by_cases hs : scopedOut t c <;> simp [hs, okB]
  | .unary raw, t, _ => by
      simp only [sql_from_constraint]
      by_cases hs : scopedOut t raw <;> simp [hs, okB]
  | .logical op [], t, h => by
      exfalso; simp [wf] at h
  | .logical op [a], t, h => by
      by_cases ha : op = "NOT"
      · subst ha
        have hwa : wf a = true := by
          simp [wf, wfList] at h; tauto
        have := wf_no_error a t hwa
        simp only [sql_from_constraint, if_pos rfl]
        exact okB_notWrap this
      · exfalso; simp [wf, wfList, ha] at h
  | .logical op (a :: b :: rest), t, h => by
      have hlen : (a :: b :: rest).length = rest.length + 2 := by simp
      have hne : ¬ op = "NOT" := by
        intro hop
        subst hop
        simp [wf, wfList, hlen] at h
      have hwa : wf a = true := by simp [wf, wfList] at h; tauto
      have hwb : wf b = true := by simp [wf, wfList] at h; tauto
      have h1 := wf_no_error a t hwa
      have h2 := wf_no_error b t hwb
      simp only [sql_from_constraint, if_neg hne]
      exact okB_combineWrap op h1 h2
  | .other d, _, h => by exfalso; simp [wf] at h

/-- Claim C7: the compiler returns the empty clause for `None`, fails with
the unknown-predicate-type error exactly on an object outside the closed
variant set, and never raises on any tree built from the closed set of
constructors (`wf`). -/
theorem unknown_constraint_error (t : Option String) :
    sql_from_constraint .pyNone t = .ok "" ∧
    (∀ d, sql_from_constraint (.other d) t =
        .error ("Unknown constraint type: " ++ d)) ∧
    (∀ p, wf p = true → ∃ s, sql_from_constraint p t = .ok s) :=
  ⟨rfl, fun _ => rfl, fun p hp => okB_exists (wf_no_error p t hp)⟩

/-- Witness for C7: the closed-constructor tree used by the repository's
test scenario compiles without error. -/
theorem unknown_constraint_error_witness :
    ∃ s, sql_from_constraint
        (.logical "AND" [.binary "slot.inst" "!=" (.lit (.str "NIRCam")),
                         .ternary "slot.slotdur" (.int 300) (.int 900)])
        (some "config") = .ok s :=
  (unknown_constraint_error (some "config")).2.2
    (.logical "AND" [.binary "slot.inst" "!=" (.lit (.str "NIRCam")),
                     .ternary "slot.slotdur" (.int 300) (.int 900)])
    (by decide)

/-! ## Claim C1 -/

/-- Claim C1 (failing run): slot `s1` is claimed by pass 1 with fields
`(1, 1, 1, 1)`, yet pass 2 — whose joint `subset` filter omits the
availability predicate — rewrites the same slot to `(2, 1, 1, 1)`.  The
four allocation-state fields of a claimed slot do not remain identical
across later passes, so the code violates the monotonic-claiming
invariant. -/
theorem allocate_rewrites_claimed_slot :
    c1State1.slots.find? (fun s => s.slot_id == "s1") =
      some ⟨"s1", "V", "C", 100, 1, 1, 1, 1⟩ ∧
    c1State2.slots.find? (fun s => s.slot_id == "s1") =
      some ⟨"s1", "V", "C", 100, 2, 1, 1, 1⟩ := by
  exact ⟨by decide, by decide⟩

/-! ## Claim C2 -/

/-- Claim C2 (counterexample): in the pass over `c2Slots`, the subset table
the code builds contains the triple `("V1", "C", "s1")` — slot `s1` joins
the config row `("V2", "C")` because the join matches `config_id` only —
while the three-way join described by the claim (config row matching the
slot row on both `config_id` and `visit_id`) does not contain it. -/
theorem subset_join_counterexample :
    ("V1", "C", "s1") ∈ buildSubset rawFalse durPositive c2Slots c2Configs c2Visits ∧
    ("V1", "C", "s1") ∉
      buildSubsetBothKeys rawFalse durPositive c2Slots c2Configs c2Visits := by
  exact ⟨by decide, by decide⟩

/-- Claim C2 (amended): the subset table built in step 4 of an allocate
pass consists exactly of the triples `(visit.visit_id, config.config_id,
slot.slot_id)` of the three-way join in which the config row matches the
slot row on `config_id` alone, the visit row matches on `visit_id`, and
the joined row passes the unscoped caller constraint (clause C). -/
theorem subset_table_characterization (rawEval : String → Bool)
    (st : ScenState) (constraint : PyObj) (t : String × String × String) :
    t ∈ allocSubset rawEval st constraint ↔
      ∃ s ∈ st.slots,
        ∃ c ∈ buildConfig rawEval (withAvailable constraint) st.slots,
          ∃ w ∈ buildVisit rawEval constraint
              (buildConfig rawEval (withAvailable constraint) st.slots),
            c.config_id = s.config_id ∧ w.visit_id = s.visit_id ∧
            passesWhere (evalScoped rawEval (jointEnv s c w) constraint none) = true ∧
            t = (w.visit_id, c.config_id, s.slot_id) := by
  unfold allocSubset buildSubset
  simp only [List.mem_flatMap, List.mem_filterMap]
  constructor
  · rintro ⟨s, hs, c, hc, w, hw, hif⟩
    split at hif
    case isTrue hcond =>
      obtain ⟨rfl⟩ := Option.some.injEq _ _ ▸ hif
      simp only [Bool.and_eq_true, beq_iff_eq] at hcond
      exact ⟨s, hs, c, hc, w, hw, hcond.1.1, hcond.1.2, hcond.2,
        (Option.some.inj hif).symm ▸ rfl⟩
    case isFalse => exact absurd hif (by simp)
  · rintro ⟨s, hs, c, hc, w, hw, h1, h2, h3, rfl⟩
    refine ⟨s, hs, c, hc, w, hw, ?_⟩
    have : (c.config_id == s.config_id && w.visit_id == s.visit_id &&
        passesWhere (evalScoped rawEval (jointEnv s c w) constraint none)) = true := by
      simp [h1, h2, h3]
    simp [this]

/-! ## Claim C8 -/

theorem visitBoundaries_cons_some :
    ∀ (l : List (String × String × String)) (b : String × String × String)
      (x : String),
      visitBoundaries (some x) (b :: l) =
        (if b.1 ≠ x then 1 else 0) + countVisitChanges (b :: l) := by
  intro l
  induction l with
  | nil =>
      intro b x
      simp [visitBoundaries, countVisitChanges]
  | cons c l ih =>
      intro b x
      have h1 : visitBoundaries (some x) (b :: c :: l) =
          (if some b.1 ≠ some x then 1 else 0) + visitBoundaries (some b.1) (c :: l) := rfl
      rw [h1, ih c b.1]
      have h2 : countVisitChanges (b :: c :: l) =
          (if c.1 ≠ b.1 then 1 else 0) + countVisitChanges (c :: l) := rfl
      rw [h2]
      simp only [ne_eq, Option.some.injEq]

theorem visitBoundaries_none (l : List (String × String × String))
    (h : l ≠ []) : visitBoundaries none l = 1 + countVisitChanges l := by
  match l, h with
  | b :: rest, _ =>
      have h1 : visitBoundaries none (b :: rest) =
          (if some b.1 ≠ none then 1 else 0) + visitBoundaries (some b.1) rest := rfl
      rw [h1]
      simp only [ne_eq, reduceCtorEq, not_false_eq_true, if_true]
      match rest with
      | [] => simp [visitBoundaries, countVisitChanges]
      | c :: l' =>
          rw [visitBoundaries_cons_some l' c b.1]
          have h2 : countVisitChanges (b :: c :: l') =
              (if c.1 ≠ b.1 then 1 else 0) + countVisitChanges (c :: l') := rfl
          rw [h2]

theorem seq_go_visit (sub ms mc : Nat) :
    ∀ (rows : List (String × String × String)) (pv pc : Option String)
      (cv cc cs i : Nat) (r : SeqRow),
      (sequence_numbers_go sub ms mc rows pv pc cv cc cs).get? i = some r →
      r.pure_slot ≠ 0 →
      r.pure_visit = cv + visitBoundaries pv (rows.take (i + 1)) := by
  intro rows
  induction rows with
  | nil => intro pv pc cv cc cs i r hr; simp [sequence_numbers_go] at hr
  | cons hd rest ih =>
      intro pv pc cv cc cs i r hr hnt
      obtain ⟨v, c, s⟩ := hd
      match i, hr with
      | 0, hr =>
          simp only [sequence_numbers_go, List.get?_cons_zero, Option.some.injEq] at hr
          subst hr
          by_cases htr : mc < (seqStep pv pc cv cc cs v c).2.1 ∨
              ms < (seqStep pv pc cv cc cs v c).2.2
          · exfalso
            unfold seqEmit at hnt
            rw [if_pos htr] at hnt
            simp at hnt
          · unfold seqEmit
            rw [if_neg htr]
            by_cases hv : some v = pv
            · have hst : (seqStep pv pc cv cc cs v c).1 = cv := by
                unfold seqStep
                rw [if_neg (by simp [hv])]
                split_ifs <;> rfl
              simp only [List.take, visitBoundaries, hst]
              rw [if_neg (by simp [hv])]
              omega
            · have hst : (seqStep pv pc cv cc cs v c).1 = cv + 1 := by
                unfold seqStep
                rw [if_pos (by simp [hv])]
              simp only [List.take, visitBoundaries, hst]
              rw [if_pos (by simp [hv])]
      | i + 1, hr =>
          simp only [sequence_numbers_go, List.get?_cons_succ] at hr
          have hrec := ih (some v) (some c) _ _ _ i r hr hnt
          rw [hrec]
          have htake : ((v, c, s) :: rest).take (i + 1 + 1) =
              (v, c, s) :: rest.take (i + 1) := rfl
          rw [htake]
          have hvb : visitBoundaries pv ((v, c, s) :: rest.take (i + 1)) =
              (if some v ≠ pv then 1 else 0) +
                visitBoundaries (some v) (rest.take (i + 1)) := rfl
          rw [hvb]
          by_cases hv : some v = pv
          · have hst : (seqStep pv pc cv cc cs v c).1 = cv := by
              unfold seqStep
              rw [if_neg (by simp [hv])]
              split_ifs <;> rfl
            rw [hst, if_neg (by simp [hv])]
            omega
          · have hst : (seqStep pv pc cv cc cs v c).1 = cv + 1 := by
              unfold seqStep
              rw [if_pos (by simp [hv])]
            rw [hst, if_pos (by simp [hv])]
            omega

/-- Claim C8: the visit sequence number of the `i`-th output row (when not
truncated) equals 1 plus the number of positions `j ≤ i` at which the input
visit identifier differs from the immediately preceding row's; and on the
concrete two-run input `c8Rows`, visit `A` receives visit numbers 1 and 3 —
visits are numbered per contiguous run, not per distinct identifier. -/
theorem visit_numbering_per_run :
    (∀ (rows : List (String × String × String)) (sub ms mc i : Nat) (r : SeqRow),
      (sequence_numbers sub rows ms mc).get? i = some r →
      r.pure_slot ≠ 0 →
      r.pure_visit = 1 + countVisitChanges (rows.take (i + 1))) ∧
    ((sequence_numbers 1 c8Rows 999 999).get? 0 =
        some ⟨"A", "c1", "s1", 1, 1, 1, 1⟩ ∧
     (sequence_numbers 1 c8Rows 999 999).get? 2 =
        some ⟨"A", "c3", "s3", 1, 3, 1, 1⟩) := by
  constructor
  · intro rows sub ms mc i r hr hnt
    have h1 := seq_go_visit sub ms mc rows none none 0 0 0 i r hr hnt
    have hlen : i < rows.length := by
      have h2 := List.get?_eq_some.1 hr
      obtain ⟨hl, _⟩ := h2
      unfold sequence_numbers at hl
      rw [seq_go_length] at hl
      exact hl
    have hne : rows.take (i + 1) ≠ [] := by
      intro hnil
      rcases List.take_eq_nil_iff.1 hnil with h | h
      · omega
      · subst h; simp at hlen
    rw [h1, visitBoundaries_none _ hne]
    omega
  · exact ⟨by decide, by decide⟩

/-- Witness for C8 at a concrete input: the third row of the two-run input
(non-truncated) has visit number `1 + countVisitChanges` of its prefix. -/
theorem visit_numbering_per_run_witness :
    (⟨"A", "c3", "s3", 1, 3, 1, 1⟩ : SeqRow).pure_visit =
      1 + countVisitChanges (c8Rows.take 3) :=
  visit_numbering_per_run.1 c8Rows 1 999 999 2 ⟨"A", "c3", "s3", 1, 3, 1, 1⟩
    (by decide) (by decide)

/-! ## Claim C4 -/

theorem seq_go_dichotomy (sub ms mc : Nat) (hsub : 1 ≤ sub) :
    ∀ (rows : List (String × String × String)) (pv pc : Option String)
      (cv cc cs : Nat), (pv = none ∨ (1 ≤ cv ∧ 1 ≤ cc)) →
      ∀ r ∈ sequence_numbers_go sub ms mc rows pv pc cv cc cs,
        (r.pure_subset = 0 ∧ r.pure_visit = 0 ∧ r.pure_config = 0 ∧
          r.pure_slot = 0) ∨
        (0 < r.pure_subset ∧ 0 < r.pure_visit ∧ 0 < r.pure_config ∧
          0 < r.pure_slot) := by
  intro rows
  induction rows with
  | nil => intro pv pc cv cc cs _ r hr; simp [sequence_numbers_go] at hr
  | cons hd rest ih =>
      intro pv pc cv cc cs hst r hr
      obtain ⟨v, c, s⟩ := hd
      simp only [sequence_numbers_go, List.mem_cons] at hr
      have hv1 : 1 ≤ (seqStep pv pc cv cc cs v c).1 :=
        seqStep_visit_pos pv pc cv cc cs v c
          (hst.imp id (fun h => h.1))
      have hc1 : 1 ≤ (seqStep pv pc cv cc cs v c).2.1 :=
        seqStep_config_pos pv pc cv cc cs v c
          (hst.imp id (fun h => h.2))
      have hs1 : 1 ≤ (seqStep pv pc cv cc cs v c).2.2 :=
        seqStep_slot_pos pv pc cv cc cs v c
      rcases hr with hr | hr
      · subst hr
        unfold seqEmit
        split_ifs with htr
        · left; exact ⟨rfl, rfl, rfl, rfl⟩
        · right
          exact ⟨hsub, hv1, hc1, hs1⟩
      · exact ih (some v) (some c) _ _ _ (Or.inr ⟨hv1, hc1⟩) r hr

theorem seq_go_counters_link (sub ms mc : Nat) :
    ∀ (rows : List (String × String × String)) (pv pc : Option String)
      (cv cc cs i : Nat) (r : SeqRow) (st : Nat × Nat × Nat),
      (sequence_numbers_go sub ms mc rows pv pc cv cc cs).get? i = some r →
      (seqCounters rows pv pc cv cc cs).get? i = some st →
      (r.pure_slot = 0 ↔ (st.2.1 > mc ∨ st.2.2 > ms)) := by
  intro rows
  induction rows with
  | nil =>
      intro pv pc cv cc cs i r st hr
      simp [sequence_numbers_go] at hr
  | cons hd rest ih =>
      intro pv pc cv cc cs i r st hr hst
      obtain ⟨v, c, s⟩ := hd
      match i, hr, hst with
      | 0, hr, hst =>
          simp only [sequence_numbers_go, List.get?_cons_zero,
            Option.some.injEq] at hr
          simp only [seqCounters, List.get?_cons_zero, Option.some.injEq] at hst
          subst hr
          subst hst
          unfold seqEmit
          split_ifs with htr
          · simpa using htr
          · have := seqStep_slot_pos pv pc cv cc cs v c
            constructor
            · intro h0
              simp at h0
              omega
            · intro h; exact absurd h htr
      | i + 1, hr, hst =>
          simp only [sequence_numbers_go, List.get?_cons_succ] at hr
          simp only [seqCounters, List.get?_cons_succ] at hst
          exact ih (some v) (some c) _ _ _ i r st hr hst

/-- Claim C4: with subset index ≥ 1, every output row of the assigner
either has all four assigned fields 0 (exactly when the counters violate a
cap: `config_seq > maxconfig` or `slot_seq > maxslot`) or has all four
strictly positive; no row mixes zero and positive fields. -/
theorem truncation_exclusivity (sub ms mc : Nat)
    (rows : List (String × String × String)) (hsub : 1 ≤ sub) :
    (∀ r ∈ sequence_numbers sub rows ms mc,
      (r.pure_subset = 0 ∧ r.pure_visit = 0 ∧ r.pure_config = 0 ∧
        r.pure_slot = 0) ∨
      (0 < r.pure_subset ∧ 0 < r.pure_visit ∧ 0 < r.pure_config ∧
        0 < r.pure_slot)) ∧
    (∀ (i : Nat) (r : SeqRow) (st : Nat × Nat × Nat),
      (sequence_numbers sub rows ms mc).get? i = some r →
      (seqCounters rows none none 0 0 0).get? i = some st →
      (r.pure_slot = 0 ↔ (st.2.1 > mc ∨ st.2.2 > ms))) :=
  ⟨seq_go_dichotomy sub ms mc hsub rows none none 0 0 0 (Or.inl rfl),
   fun i r st hr hst =>
     seq_go_counters_link sub ms mc rows none none 0 0 0 i r st hr hst⟩

/-- Witness for C4 at a concrete input: one claimed row and one truncated
row of a `maxslot = 1` run. -/
theorem truncation_exclusivity_witness :
    (((⟨"V", "C", "s1", 1, 1, 1, 1⟩ : SeqRow).pure_subset = 0 ∧
      (⟨"V", "C", "s1", 1, 1, 1, 1⟩ : SeqRow).pure_visit = 0 ∧
      (⟨"V", "C", "s1", 1, 1, 1, 1⟩ : SeqRow).pure_config = 0 ∧
      (⟨"V", "C", "s1", 1, 1, 1, 1⟩ : SeqRow).pure_slot = 0) ∨
     (0 < (⟨"V", "C", "s1", 1, 1, 1, 1⟩ : SeqRow).pure_subset ∧
      0 < (⟨"V", "C", "s1", 1, 1, 1, 1⟩ : SeqRow).pure_visit ∧
      0 < (⟨"V", "C", "s1", 1, 1, 1, 1⟩ : SeqRow).pure_config ∧
      0 < (⟨"V", "C", "s1", 1, 1, 1, 1⟩ : SeqRow).pure_slot)) ∧
    ((⟨"V", "C", "s2", 0, 0, 0, 0⟩ : SeqRow).pure_slot = 0 ↔
      ((1 : Nat) > 999 ∨ (2 : Nat) > 1)) :=
  ⟨(truncation_exclusivity 1 1 999 [("V", "C", "s1"), ("V", "C", "s2")]
      (by decide)).1 ⟨"V", "C", "s1", 1, 1, 1, 1⟩ (by decide),
   (truncation_exclusivity 1 1 999 [("V", "C", "s1"), ("V", "C", "s2")]
      (by decide)).2 1 ⟨"V", "C", "s2", 0, 0, 0, 0⟩ (1, 1, 2)
      (by decide) (by decide)⟩

/-! ## Claim C6 -/

theorem scopedOut_false_pref {T name : String} (hT : T ≠ "")
    (h : scopedOut (some T) name = false) :
    (T ++ ".").data.isPrefixOf name.data = true := by
  simp only [scopedOut, Bool.and_eq_false_iff, decide_eq_false_iff_not,
    not_not, Bool.not_eq_false] at h
  rcases h with h | h
  · exact absurd h hT
  · simpa using h

theorem pref_append {T : String} (c x : String)
    (h : (T ++ ".").data.isPrefixOf c.data = true) :
    (T ++ ".").data.isPrefixOf (c ++ x).data = true := by
  rw [List.isPrefixOf_iff_prefix] at h ⊢
  rw [String.data_append]
  exact h.trans (List.prefix_append c.data x.data)

theorem scoped_clause_of_ok : ∀ (tree : PyObj) (T s : String), T ≠ "" →
    sql_from_constraint tree (some T) = .ok s → ScopedClause T s
  | .pyNone, T, s, _, hok => by
      simp only [sql_from_constraint, Except.ok.injEq] at hok
      subst hok
      exact ScopedClause.empty
  | .binary c operator v, T, s, hT, hok => by
      simp only [sql_from_constraint] at hok
      by_cases hs : scopedOut (some T) c = true
      · rw [if_pos hs] at hok
        simp only [Except.ok.injEq] at hok
        subst hok
        exact ScopedClause.empty
      · rw [if_neg hs] at hok
        match hbv : binaryVstr operator v with
        | .error e => rw [hbv] at hok; exact absurd hok (by simp)
        | .ok vstr =>
            rw [hbv] at hok
            simp only [Except.ok.injEq] at hok
            subst hok
            have hp : (T ++ ".").data.isPrefixOf c.data = true :=
              scopedOut_false_pref hT (by simpa using hs)
            exact ScopedClause.leaf _ (pref_append _ _ (pref_append _ _
              (pref_append _ _ (pref_append c " " hp))))
  | .ternary c lo hi, T, s, hT, hok => by
      simp only [sql_from_constraint] at hok
      by_cases hs : scopedOut (some T) c = true
      · rw [if_pos hs] at hok
        simp only [Except.ok.injEq] at hok
        subst hok
        exact ScopedClause.empty
      · rw [if_neg hs] at hok
        simp only [Except.ok.injEq] at hok
        subst hok
        have hp : (T ++ ".").data.isPrefixOf c.data = true :=
          scopedOut_false_pref hT (by simpa using hs)
        exact ScopedClause.leaf _ (pref_append _ _ (pref_append _ _
          (pref_append _ _ (pref_append c " BETWEEN " hp))))
  | .unary raw, T, s, hT, hok => by
      simp only [sql_from_constraint] at hok
      by_cases hs : scopedOut (some T) raw = true
      · rw [if_pos hs] at hok
        simp only [Except.ok.injEq] at hok
        subst hok
        exact ScopedClause.empty
      · rw [if_neg hs] at hok
        simp only [Except.ok.injEq] at hok
        subst hok
        exact ScopedClause.leaf _ (scopedOut_false_pref hT (by simpa using hs))
  | .logical op [], T, s, _, hok => by
      simp only [sql_from_constraint] at hok
      exact absurd hok (by simp)
  | .logical op [a], T, s, hT, hok => by
      simp only [sql_from_constraint] at hok
      by_cases hno : op = "NOT"
      · rw [if_pos hno] at hok
        match ha : sql_from_constraint a (some T) with
        | .error e => rw [ha] at hok; exact absurd hok (by simp [notWrap])
        | .ok sql =>
            rw [ha] at hok
            have hrec := scoped_clause_of_ok a T sql hT ha
            simp only [notWrap, Except.ok.injEq] at hok
            by_cases hsql : sql = ""
            · rw [if_neg (by simp [hsql])] at hok
              subst hok
              exact ScopedClause.empty
            · rw [if_pos (by simp [hsql])] at hok
              subst hok
              exact ScopedClause.notClause sql hrec hsql
      · rw [if_neg hno] at hok
        exact absurd hok (by simp)
  | .logical op (a :: b :: rest), T, s, hT, hok => by
      simp only [sql_from_constraint] at hok
      by_cases hno : op = "NOT"
      · rw [if_pos hno] at hok
        match ha : sql_from_constraint a (some T) with
        | .error e => rw [ha] at hok; exact absurd hok (by simp [notWrap])
        | .ok sql =>
            rw [ha] at hok
            have hrec := scoped_clause_of_ok a T sql hT ha
            simp only [notWrap, Except.ok.injEq] at hok
            by_cases hsql : sql = ""
            · rw [if_neg (by simp [hsql])] at hok
              subst hok
              exact ScopedClause.empty
            · rw [if_pos (by simp [hsql])] at hok
              subst hok
              exact ScopedClause.notClause sql hrec hsql
      · rw [if_neg hno] at hok
        match ha : sql_from_constraint a (some T),
              hb : sql_from_constraint b (some T) with
        | .error e, _ => rw [ha] at hok; exact absurd hok (by simp [combineWrap])
        | .ok la, .error e =>
            rw [ha, hb] at hok; exact absurd hok (by simp [combineWrap])
        | .ok la, .ok lb =>
            rw [ha, hb] at hok
            have hra := scoped_clause_of_ok a T la hT ha
            have hrb := scoped_clause_of_ok b T lb hT hb
            simp only [combineWrap] at hok
            by_cases h1 : la = "" <;> by_cases h2 : lb = ""
            · rw [if_neg (by simp [h1])] at hok
              simp only [Except.ok.injEq] at hok
              rw [if_neg (by simp [h1])] at hok
              subst hok
              exact hrb
            · rw [if_neg (by simp [h1])] at hok
              simp only [Except.ok.injEq] at hok
              rw [if_neg (by simp [h1])] at hok
              subst hok
              exact hrb
            · rw [if_neg (by simp [h2])] at hok
              simp only [Except.ok.injEq] at hok
              rw [if_pos (by simp [h1])] at hok
              subst hok
              exact hra
            · rw [if_pos ⟨h1, h2⟩] at hok
              simp only [Except.ok.injEq] at hok
              subst hok
              exact ScopedClause.binClause op la lb hra hrb h1 h2
  | .other d, T, s, _, hok => by
      simp only [sql_from_constraint] at hok
      exact absurd hok (by simp)

/-- Claim C6: a clause compiled under scope `T` references no column of any
other table — it is built exclusively from leaf renderings qualified with
the `T.` column form (out-of-scope leaves contribute the empty string). -/
theorem compile_scoped_only (tree : PyObj) (T s : String) (hT : T ≠ "")
    (hok : sql_from_constraint tree (some T) = .ok s) : ScopedClause T s :=
  scoped_clause_of_ok tree T s hT hok

/-- Witness for C6: the test scenario's constraint compiled under the
`slot` scope yields a clause built only from `slot.`-qualified leaves. -/
theorem compile_scoped_only_witness :
    ScopedClause "slot"
      ("(" ++ ("slot.inst != " ++ pyQuote ++ "NIRCam" ++ pyQuote) ++ " AND " ++
        "slot.slotdur BETWEEN 300 AND 900" ++ ")") := by
  have h := compile_scoped_only
    (.logical "AND" [.binary "slot.inst" "!=" (.lit (.str "NIRCam")),
                     .ternary "slot.slotdur" (.int 300) (.int 900)])
    "slot"
    ("(" ++ ("slot.inst != " ++ pyQuote ++ "NIRCam" ++ pyQuote) ++ " AND " ++
      "slot.slotdur BETWEEN 300 AND 900" ++ ")")
    (by decide) (by rfl)
  exact h

/-! ## Claim C3: dense numbering -/

theorem cfg_upper (sub ms mc : Nat) :
    ∀ (rows : List (String × String × String)) (pv pc : Option String)
      (cv cc cs : Nat) (V : String) (n : Nat),
      n ∈ configVals V (sequence_numbers_go sub ms mc rows pv pc cv cc cs) →
      n ≤ mc ∧ 1 ≤ ms := by
  intro rows
  induction rows with
  | nil => intro pv pc cv cc cs V n hn; simp [sequence_numbers_go, configVals] at hn
  | cons hd rest ih =>
      intro pv pc cv cc cs V n hn
      obtain ⟨v, c, s⟩ := hd
      simp only [sequence_numbers_go] at hn
      by_cases htr : mc < (seqStep pv pc cv cc cs v c).2.1 ∨
          ms < (seqStep pv pc cv cc cs v c).2.2
      · rw [show seqEmit sub ms mc v c s (seqStep pv pc cv cc cs v c) =
            ⟨v, c, s, 0, 0, 0, 0⟩ from by unfold seqEmit; rw [if_pos htr]] at hn
        simp only [configVals] at hn
        rw [if_neg (by simp)] at hn
        exact ih _ _ _ _ _ V n hn
      · rw [show seqEmit sub ms mc v c s (seqStep pv pc cv cc cs v c) =
            ⟨v, c, s, sub, (seqStep pv pc cv cc cs v c).1,
              (seqStep pv pc cv cc cs v c).2.1,
              (seqStep pv pc cv cc cs v c).2.2⟩ from by
            unfold seqEmit; rw [if_neg htr]] at hn
        simp only [configVals] at hn
        have hs1 := seqStep_slot_pos pv pc cv cc cs v c
        by_cases hV : v = V
        · rw [if_pos (by constructor; exact hV; omega)] at hn
          simp only [List.mem_cons] at hn
          rcases hn with hn | hn
          · subst hn
            push_neg at htr
            omega
          · exact ih _ _ _ _ _ V n hn
        · rw [if_neg (by simp [hV])] at hn
          exact ih _ _ _ _ _ V n hn

theorem cfg_lower (sub ms mc : Nat) :
    ∀ (rows : List (String × String × String)) (pv pc : Option String)
      (cv cc cs : Nat) (V : String) (n : Nat), (pv = none ∨ 1 ≤ cc) →
      n ∈ configVals V (sequence_numbers_go sub ms mc rows pv pc cv cc cs) →
      1 ≤ n := by
  intro rows
  induction rows with
  | nil => intro pv pc cv cc cs V n _ hn; simp [sequence_numbers_go, configVals] at hn
  | cons hd rest ih =>
      intro pv pc cv cc cs V n hst hn
      obtain ⟨v, c, s⟩ := hd
      simp only [sequence_numbers_go] at hn
      have hc1 := seqStep_config_pos pv pc cv cc cs v c hst
      by_cases htr : mc < (seqStep pv pc cv cc cs v c).2.1 ∨
          ms < (seqStep pv pc cv cc cs v c).2.2
      · rw [show seqEmit sub ms mc v c s (seqStep pv pc cv cc cs v c) =
            ⟨v, c, s, 0, 0, 0, 0⟩ from by unfold seqEmit; rw [if_pos htr]] at hn
        simp only [configVals] at hn
        rw [if_neg (by simp)] at hn
        exact ih _ _ _ _ _ V n (Or.inr hc1) hn
      · rw [show seqEmit sub ms mc v c s (seqStep pv pc cv cc cs v c) =
            ⟨v, c, s, sub, (seqStep pv pc cv cc cs v c).1,
              (seqStep pv pc cv cc cs v c).2.1,
              (seqStep pv pc cv cc cs v c).2.2⟩ from by
            unfold seqEmit; rw [if_neg htr]] at hn
        simp only [configVals] at hn
        have hs1 := seqStep_slot_pos pv pc cv cc cs v c
        by_cases hV : v = V
        · rw [if_pos (by constructor; exact hV; omega)] at hn
          simp only [List.mem_cons] at hn
          rcases hn with hn | hn
          · omega
          · exact ih _ _ _ _ _ V n (Or.inr hc1) hn
        · rw [if_neg (by simp [hV])] at hn
          exact ih _ _ _ _ _ V n (Or.inr hc1) hn

theorem seqStep_cases (pv pc : Option String) (cv cc cs : Nat) (v c : String) :
    (¬ some v = pv ∧ seqStep pv pc cv cc cs v c = (cv + 1, 1, 1)) ∨
    (some v = pv ∧ ¬ some c = pc ∧
      seqStep pv pc cv cc cs v c = (cv, cc + 1, 1)) ∨
    (some v = pv ∧ some c = pc ∧
      seqStep pv pc cv cc cs v c = (cv, cc, cs + 1)) := by
  unfold seqStep
  by_cases hv : some v = pv
  · by_cases hc : some c = pc
    · exact Or.inr (Or.inr ⟨hv, hc,
        by rw [if_neg (by simp [hv]), if_neg (by simp [hc])]⟩)
    · exact Or.inr (Or.inl ⟨hv, hc,
        by rw [if_neg (by simp [hv]), if_pos (by simp [hc])]⟩)
  · exact Or.inl ⟨hv, by rw [if_pos (by simp [hv])]⟩

theorem seqEmit_mk_trunc (sub ms mc : Nat) (v c s : String) (a b d : Nat)
    (h : mc < b ∨ ms < d) :
    seqEmit sub ms mc v c s (a, b, d) = ⟨v, c, s, 0, 0, 0, 0⟩ := by
  unfold seqEmit
  exact if_pos h

theorem seqEmit_mk_keep (sub ms mc : Nat) (v c s : String) (a b d : Nat)
    (h : ¬ (mc < b ∨ ms < d)) :
    seqEmit sub ms mc v c s (a, b, d) = ⟨v, c, s, sub, a, b, d⟩ := by
  unfold seqEmit
  exact if_neg h

theorem cfg_dense (sub ms mc : Nat) :
    ∀ (rows : List (String × String × String)) (pv pc : Option String)
      (cv cc cs : Nat) (V : String) (n : Nat), 1 ≤ n →
      n + 1 ∈ configVals V (sequence_numbers_go sub ms mc rows pv pc cv cc cs) →
      n ∈ configVals V (sequence_numbers_go sub ms mc rows pv pc cv cc cs) ∨
        (pv = some V ∧ n + 1 ≤ cc + 1) := by
  intro rows
  induction rows with
  | nil =>
      intro pv pc cv cc cs V n _ h
      simp [sequence_numbers_go, configVals] at h
  | cons hd rest ih =>
      intro pv pc cv cc cs V n hn1 hmem
      obtain ⟨v, c, s⟩ := hd
      simp only [sequence_numbers_go] at hmem ⊢
      rcases seqStep_cases pv pc cv cc cs v c with
        ⟨hv, hst⟩ | ⟨hv, hc, hst⟩ | ⟨hv, hc, hst⟩
      · -- new visit: counters (cv + 1, 1, 1)
        rw [hst] at hmem ⊢
        dsimp only at hmem ⊢
        by_cases htr : mc < 1 ∨ ms < 1
        · rw [seqEmit_mk_trunc sub ms mc v c s _ _ _ htr] at hmem ⊢
          simp only [configVals] at hmem ⊢
          rw [if_neg (by simp)] at hmem ⊢
          have hup := cfg_upper sub ms mc rest (some v) (some c) (cv + 1) 1 1
            V (n + 1) hmem
          rcases htr with h | h <;> omega
        · rw [seqEmit_mk_keep sub ms mc v c s _ _ _ htr] at hmem ⊢
          simp only [configVals] at hmem ⊢
          by_cases hV : v = V
          · rw [if_pos (by exact ⟨hV, by simp⟩)] at hmem ⊢
            simp only [List.mem_cons] at hmem ⊢
            rcases hmem with hmem | hmem
            · omega
            · rcases ih (some v) (some c) (cv + 1) 1 1 V n hn1 hmem with
                h | ⟨hv2, hle⟩
              · exact Or.inl (Or.inr h)
              · left; left; omega
          · rw [if_neg (by simp [hV])] at hmem ⊢
            rcases ih (some v) (some c) (cv + 1) 1 1 V n hn1 hmem with
              h | ⟨hv2, hle⟩
            · exact Or.inl h
            · exact absurd (Option.some.inj hv2) hV
      · -- same visit, new config: counters (cv, cc + 1, 1)
        rw [hst] at hmem ⊢
        dsimp only at hmem ⊢
        by_cases htr : mc < cc + 1 ∨ ms < 1
        · rw [seqEmit_mk_trunc sub ms mc v c s _ _ _ htr] at hmem ⊢
          simp only [configVals] at hmem ⊢
          rw [if_neg (by simp)] at hmem ⊢
          have hup := cfg_upper sub ms mc rest (some v) (some c) cv (cc + 1) 1
            V (n + 1) hmem
          rcases ih (some v) (some c) cv (cc + 1) 1 V n hn1 hmem with
            h | ⟨hv2, hle⟩
          · exact Or.inl h
          · right
            refine ⟨by rw [← hv]; exact hv2, ?_⟩
            rcases htr with h | h <;> omega
        · rw [seqEmit_mk_keep sub ms mc v c s _ _ _ htr] at hmem ⊢
          simp only [configVals] at hmem ⊢
          by_cases hV : v = V
          · rw [if_pos (by exact ⟨hV, by simp⟩)] at hmem ⊢
            simp only [List.mem_cons] at hmem ⊢
            rcases hmem with hmem | hmem
            · right
              refine ⟨by rw [← hv, hV], by omega⟩
            · rcases ih (some v) (some c) cv (cc + 1) 1 V n hn1 hmem with
                h | ⟨hv2, hle⟩
              · exact Or.inl (Or.inr h)
              · by_cases hle2 : n + 1 ≤ cc + 1
                · right; exact ⟨by rw [← hv, hV], hle2⟩
                · left; left; omega
          · rw [if_neg (by simp [hV])] at hmem ⊢
            rcases ih (some v) (some c) cv (cc + 1) 1 V n hn1 hmem with
              h | ⟨hv2, hle⟩
            · exact Or.inl h
            · exact absurd (Option.some.inj hv2) hV
      · -- same visit, same config: counters (cv, cc, cs + 1)
        rw [hst] at hmem ⊢
        dsimp only at hmem ⊢
        by_cases htr : mc < cc ∨ ms < cs + 1
        · rw [seqEmit_mk_trunc sub ms mc v c s _ _ _ htr] at hmem ⊢
          simp only [configVals] at hmem ⊢
          rw [if_neg (by simp)] at hmem ⊢
          rcases ih (some v) (some c) cv cc (cs + 1) V n hn1 hmem with
            h | ⟨hv2, hle⟩
          · exact Or.inl h
          · right
            exact ⟨by rw [← hv]; exact hv2, hle⟩
        · rw [seqEmit_mk_keep sub ms mc v c s _ _ _ htr] at hmem ⊢
          simp only [configVals] at hmem ⊢
          by_cases hV : v = V
          · rw [if_pos (by exact ⟨hV, by simp⟩)] at hmem ⊢
            simp only [List.mem_cons] at hmem ⊢
            rcases hmem with hmem | hmem
            · right
              refine ⟨by rw [← hv, hV], by omega⟩
            · rcases ih (some v) (some c) cv cc (cs + 1) V n hn1 hmem with
                h | ⟨hv2, hle⟩
              · exact Or.inl (Or.inr h)
              · right; exact ⟨by rw [← hv, hV], hle⟩
          · rw [if_neg (by simp [hV])] at hmem ⊢
            rcases ih (some v) (some c) cv cc (cs + 1) V n hn1 hmem with
              h | ⟨hv2, hle⟩
            · exact Or.inl h
            · exact absurd (Option.some.inj hv2) hV

theorem slot_upper (sub ms mc : Nat) :
    ∀ (rows : List (String × String × String)) (pv pc : Option String)
      (cv cc cs : Nat) (V C : String) (n : Nat),
      n ∈ slotVals V C (sequence_numbers_go sub ms mc rows pv pc cv cc cs) →
      1 ≤ n ∧ n ≤ ms := by
  intro rows
  induction rows with
  | nil => intro pv pc cv cc cs V C n hn; simp [sequence_numbers_go, slotVals] at hn
  | cons hd rest ih =>
      intro pv pc cv cc cs V C n hn
      obtain ⟨v, c, s⟩ := hd
      simp only [sequence_numbers_go] at hn
      by_cases htr : mc < (seqStep pv pc cv cc cs v c).2.1 ∨
          ms < (seqStep pv pc cv cc cs v c).2.2
      · rw [show seqEmit sub ms mc v c s (seqStep pv pc cv cc cs v c) =
            ⟨v, c, s, 0, 0, 0, 0⟩ from by unfold seqEmit; rw [if_pos htr]] at hn
        simp only [slotVals] at hn
        rw [if_neg (by simp)] at hn
        exact ih _ _ _ _ _ V C n hn
      · rw [show seqEmit sub ms mc v c s (seqStep pv pc cv cc cs v c) =
            ⟨v, c, s, sub, (seqStep pv pc cv cc cs v c).1,
              (seqStep pv pc cv cc cs v c).2.1,
              (seqStep pv pc cv cc cs v c).2.2⟩ from by
            unfold seqEmit; rw [if_neg htr]] at hn
        simp only [slotVals] at hn
        have hs1 := seqStep_slot_pos pv pc cv cc cs v c
        by_cases hVC : v = V ∧ c = C
        · rw [if_pos (by exact ⟨hVC.1, hVC.2, by omega⟩)] at hn
          simp only [List.mem_cons] at hn
          rcases hn with hn | hn
          · subst hn
            push_neg at htr
            omega
          · exact ih _ _ _ _ _ V C n hn
        · rw [if_neg (by
            intro hcon
            exact hVC ⟨hcon.1, hcon.2.1⟩)] at hn
          exact ih _ _ _ _ _ V C n hn

theorem slot_dense (sub ms mc : Nat) :
    ∀ (rows : List (String × String × String)) (pv pc : Option String)
      (cv cc cs : Nat) (V C : String) (n : Nat), 1 ≤ n →
      n + 1 ∈ slotVals V C (sequence_numbers_go sub ms mc rows pv pc cv cc cs) →
      n ∈ slotVals V C (sequence_numbers_go sub ms mc rows pv pc cv cc cs) ∨
        (pv = some V ∧ pc = some C ∧ n + 1 ≤ cs + 1 ∧ cc ≤ mc) := by
  intro rows
  induction rows with
  | nil =>
      intro pv pc cv cc cs V C n _ h
      simp [sequence_numbers_go, slotVals] at h
  | cons hd rest ih =>
      intro pv pc cv cc cs V C n hn1 hmem
      obtain ⟨v, c, s⟩ := hd
      simp only [sequence_numbers_go] at hmem ⊢
      rcases seqStep_cases pv pc cv cc cs v c with
        ⟨hv, hst⟩ | ⟨hv, hc, hst⟩ | ⟨hv, hc, hst⟩
      · -- new visit: counters (cv + 1, 1, 1)
        rw [hst] at hmem ⊢
        dsimp only at hmem ⊢
        by_cases htr : mc < 1 ∨ ms < 1
        · rw [seqEmit_mk_trunc sub ms mc v c s _ _ _ htr] at hmem ⊢
          simp only [slotVals] at hmem ⊢
          rw [if_neg (by simp)] at hmem ⊢
          have hup := slot_upper sub ms mc rest (some v) (some c) (cv + 1) 1 1
            V C (n + 1) hmem
          rcases ih (some v) (some c) (cv + 1) 1 1 V C n hn1 hmem with
            h | ⟨hv2, hc2, hle, hcc⟩
          · exact Or.inl h
          · rcases htr with h | h <;> omega
        · rw [seqEmit_mk_keep sub ms mc v c s _ _ _ htr] at hmem ⊢
          simp only [slotVals] at hmem ⊢
          by_cases hVC : v = V ∧ c = C
          · rw [if_pos (by exact ⟨hVC.1, hVC.2, by simp⟩)] at hmem ⊢
            simp only [List.mem_cons] at hmem ⊢
            rcases hmem with hmem | hmem
            · omega
            · rcases ih (some v) (some c) (cv + 1) 1 1 V C n hn1 hmem with
                h | ⟨hv2, hc2, hle, hcc⟩
              · exact Or.inl (Or.inr h)
              · left; left; omega
          · rw [if_neg (by intro hcon; exact hVC ⟨hcon.1, hcon.2.1⟩)] at hmem ⊢
            rcases ih (some v) (some c) (cv + 1) 1 1 V C n hn1 hmem with
              h | ⟨hv2, hc2, hle, hcc⟩
            · exact Or.inl h
            · exact absurd ⟨Option.some.inj hv2, Option.some.inj hc2⟩ hVC
      · -- same visit, new config: counters (cv, cc + 1, 1)
        rw [hst] at hmem ⊢
        dsimp only at hmem ⊢
        by_cases htr : mc < cc + 1 ∨ ms < 1
        · rw [seqEmit_mk_trunc sub ms mc v c s _ _ _ htr] at hmem ⊢
          simp only [slotVals] at hmem ⊢
          rw [if_neg (by simp)] at hmem ⊢
          have hup := slot_upper sub ms mc rest (some v) (some c) cv (cc + 1) 1
            V C (n + 1) hmem
          rcases ih (some v) (some c) cv (cc + 1) 1 V C n hn1 hmem with
            h | ⟨hv2, hc2, hle, hcc⟩
          · exact Or.inl h
          · rcases htr with h | h <;> omega
        · rw [seqEmit_mk_keep sub ms mc v c s _ _ _ htr] at hmem ⊢
          simp only [slotVals] at hmem ⊢
          by_cases hVC : v = V ∧ c = C
          · rw [if_pos (by exact ⟨hVC.1, hVC.2, by simp⟩)] at hmem ⊢
            simp only [List.mem_cons] at hmem ⊢
            rcases hmem with hmem | hmem
            · omega
            · rcases ih (some v) (some c) cv (cc + 1) 1 V C n hn1 hmem with
                h | ⟨hv2, hc2, hle, hcc⟩
              · exact Or.inl (Or.inr h)
              · left; left; omega
          · rw [if_neg (by intro hcon; exact hVC ⟨hcon.1, hcon.2.1⟩)] at hmem ⊢
            rcases ih (some v) (some c) cv (cc + 1) 1 V C n hn1 hmem with
              h | ⟨hv2, hc2, hle, hcc⟩
            · exact Or.inl h
            · exact absurd ⟨Option.some.inj hv2, Option.some.inj hc2⟩ hVC
      · -- same visit, same config: counters (cv, cc, cs + 1)
        rw [hst] at hmem ⊢
        dsimp only at hmem ⊢
        by_cases htr : mc < cc ∨ ms < cs + 1
        · rw [seqEmit_mk_trunc sub ms mc v c s _ _ _ htr] at hmem ⊢
          simp only [slotVals] at hmem ⊢
          rw [if_neg (by simp)] at hmem ⊢
          have hup := slot_upper sub ms mc rest (some v) (some c) cv cc (cs + 1)
            V C (n + 1) hmem
          rcases ih (some v) (some c) cv cc (cs + 1) V C n hn1 hmem with
            h | ⟨hv2, hc2, hle, hcc⟩
          · exact Or.inl h
          · right
            refine ⟨by rw [← hv]; exact hv2, by rw [← hc]; exact hc2, ?_, hcc⟩
            rcases htr with h | h <;> omega
        · rw [seqEmit_mk_keep sub ms mc v c s _ _ _ htr] at hmem ⊢
          simp only [slotVals] at hmem ⊢
          by_cases hVC : v = V ∧ c = C
          · rw [if_pos (by exact ⟨hVC.1, hVC.2, by simp⟩)] at hmem ⊢
            simp only [List.mem_cons] at hmem ⊢
            rcases hmem with hmem | hmem
            · right
              refine ⟨by rw [← hv, hVC.1], by rw [← hc, hVC.2], by omega, by omega⟩
            · rcases ih (some v) (some c) cv cc (cs + 1) V C n hn1 hmem with
                h | ⟨hv2, hc2, hle, hcc⟩
              · exact Or.inl (Or.inr h)
              · by_cases hle2 : n + 1 ≤ cs + 1
                · right
                  exact ⟨by rw [← hv, hVC.1], by rw [← hc, hVC.2], hle2, by omega⟩
                · left; left; omega
          · rw [if_neg (by intro hcon; exact hVC ⟨hcon.1, hcon.2.1⟩)] at hmem ⊢
            rcases ih (some v) (some c) cv cc (cs + 1) V C n hn1 hmem with
              h | ⟨hv2, hc2, hle, hcc⟩
            · exact Or.inl h
            · exact absurd ⟨Option.some.inj hv2, Option.some.inj hc2⟩ hVC

theorem foldr_max_le {l : List Nat} {a : Nat} (h : a ∈ l) :
    a ≤ l.foldr max 0 := by
  induction l with
  | nil => simp at h
  | cons b l ih =>
      simp only [List.mem_cons] at h
      simp only [List.foldr]
      rcases h with h | h
      · subst h; exact Nat.le_max_left a _
      · exact le_trans (ih h) (Nat.le_max_right b _)

theorem foldr_max_mem (l : List Nat) :
    l.foldr max 0 = 0 ∨ l.foldr max 0 ∈ l := by
  induction l with
  | nil => exact Or.inl rfl
  | cons b l ih =>
      simp only [List.foldr]
      rcases Nat.le_total b (l.foldr max 0) with h | h
      · rw [Nat.max_eq_right h]
        rcases ih with h0 | hm
        · rw [h0]
          left
          omega
        · exact Or.inr (List.mem_cons_of_mem b hm)
      · rw [Nat.max_eq_left h]
        exact Or.inr (List.mem_cons_self b l)

theorem dense_range (S : List Nat) (cap : Nat)
    (hub : ∀ n ∈ S, 1 ≤ n ∧ n ≤ cap)
    (hdn : ∀ n, 1 ≤ n → n + 1 ∈ S → n ∈ S) :
    ∃ k, k ≤ cap ∧ ∀ n, n ∈ S ↔ 1 ≤ n ∧ n ≤ k := by
  refine ⟨S.foldr max 0, ?_, ?_⟩
  · rcases foldr_max_mem S with h | h
    · rw [h]; exact Nat.zero_le cap
    · exact (hub _ h).2
  · intro n
    constructor
    · intro hn
      exact ⟨(hub n hn).1, foldr_max_le hn⟩
    · rintro ⟨h1, h2⟩
      have hk : S.foldr max 0 ∈ S := by
        rcases foldr_max_mem S with h | h
        · omega
        · exact h
      have key : ∀ d, 1 ≤ S.foldr max 0 - d → (S.foldr max 0 - d) ∈ S := by
        intro d
        induction d with
        | zero => intro _; simpa using hk
        | succ d ihd =>
            intro hd
            have hmem := ihd (by omega)
            have heq : (S.foldr max 0 - (d + 1)) + 1 = S.foldr max 0 - d := by
              omega
            exact hdn _ (by omega) (heq ▸ hmem)
      have hfin := key (S.foldr max 0 - n) (by omega)
      have heq2 : S.foldr max 0 - (S.foldr max 0 - n) = n := by omega
      exact heq2 ▸ hfin

theorem seqStep_same_keys (cv cc cs : Nat) (v c : String) :
    seqStep (some v) (some c) cv cc cs v c = (cv, cc, cs + 1) := by
  unfold seqStep
  rw [if_neg (by simp), if_neg (by simp)]

theorem trunc_step (sub ms mc : Nat) :
    ∀ (rows : List (String × String × String)) (pv pc : Option String)
      (cv cc cs i : Nat) (a b : String × String × String) (ra rb : SeqRow),
      rows.get? i = some a → rows.get? (i + 1) = some b →
      b.1 = a.1 → b.2.1 = a.2.1 →
      (sequence_numbers_go sub ms mc rows pv pc cv cc cs).get? i = some ra →
      (sequence_numbers_go sub ms mc rows pv pc cv cc cs).get? (i + 1) = some rb →
      ra.pure_slot = 0 → rb.pure_slot = 0 := by
  intro rows
  induction rows with
  | nil => intro pv pc cv cc cs i a b ra rb ha; simp at ha
  | cons hd rest ih =>
      intro pv pc cv cc cs i a b ra rb ha hb hb1 hb2 hra hrb h0
      obtain ⟨v, c, s⟩ := hd
      cases i with
      | zero =>
          have haa : (v, c, s) = a := Option.some.inj ha
          subst haa
          simp only [List.get?_cons_succ] at hb
          simp only [sequence_numbers_go, List.get?_cons_zero,
            Option.some.injEq] at hra
          simp only [sequence_numbers_go, List.get?_cons_succ] at hrb
          match rest, hb, hrb with
          | hd2 :: rest2, hb, hrb =>
              obtain ⟨bv, bc, bs⟩ := hd2
              have hbb : (bv, bc, bs) = b := by simpa using hb
              subst hbb
              simp only at hb1 hb2
              simp only [sequence_numbers_go, List.get?_cons_zero,
                Option.some.injEq] at hrb
              rw [hb1, hb2] at hrb
              rw [seqStep_same_keys _ _ _ v c] at hrb
              by_cases htr : mc < (seqStep pv pc cv cc cs v c).2.1 ∨
                  ms < (seqStep pv pc cv cc cs v c).2.2
              · have htr2 : mc < (seqStep pv pc cv cc cs v c).2.1 ∨
                    ms < (seqStep pv pc cv cc cs v c).2.2 + 1 := by
                  rcases htr with h | h
                  · exact Or.inl h
                  · exact Or.inr (by omega)
                rw [seqEmit_mk_trunc sub ms mc v c bs _ _ _ htr2] at hrb
                rw [← hrb]
              · exfalso
                rw [show seqEmit sub ms mc v c s (seqStep pv pc cv cc cs v c) =
                    ⟨v, c, s, sub, (seqStep pv pc cv cc cs v c).1,
                      (seqStep pv pc cv cc cs v c).2.1,
                      (seqStep pv pc cv cc cs v c).2.2⟩ from by
                    unfold seqEmit; rw [if_neg htr]] at hra
                have hs1 := seqStep_slot_pos pv pc cv cc cs v c
                rw [← hra] at h0
                simp only at h0
                omega
      | succ i =>
          simp only [List.get?_cons_succ] at ha hb
          simp only [sequence_numbers_go, List.get?_cons_succ] at hra hrb
          exact ih (some v) (some c) _ _ _ i a b ra rb ha hb hb1 hb2 hra hrb h0

theorem trunc_run (sub ms mc : Nat) :
    ∀ (d : Nat) (rows : List (String × String × String)) (pv pc : Option String)
      (cv cc cs i : Nat) (a : String × String × String) (ra rb : SeqRow),
      rows.get? i = some a →
      (∀ t bt, i ≤ t → t ≤ i + d → rows.get? t = some bt →
        bt.1 = a.1 ∧ bt.2.1 = a.2.1) →
      (sequence_numbers_go sub ms mc rows pv pc cv cc cs).get? i = some ra →
      (sequence_numbers_go sub ms mc rows pv pc cv cc cs).get? (i + d) = some rb →
      ra.pure_slot = 0 → rb.pure_slot = 0 := by
  intro d
  induction d with
  | zero =>
      intro rows pv pc cv cc cs i a ra rb _ _ hra hrb h0
      rw [Nat.add_zero] at hrb
      rw [hra] at hrb
      rw [← Option.some.inj hrb]
      exact h0
  | succ d ihd =>
      intro rows pv pc cv cc cs i a ra rb ha hcont hra hrb h0
      have hlen2 : i + d + 1 < rows.length := by
        obtain ⟨hl, _⟩ := List.get?_eq_some.1 hrb
        rw [seq_go_length] at hl
        omega
      have hmo : i + d < (sequence_numbers_go sub ms mc rows pv pc cv cc cs).length := by
        rw [seq_go_length]
        omega
      obtain ⟨rm, hrm⟩ : ∃ rm,
          (sequence_numbers_go sub ms mc rows pv pc cv cc cs).get? (i + d) = some rm :=
        ⟨_, List.get?_eq_get hmo⟩
      have hmid : rm.pure_slot = 0 :=
        ihd rows pv pc cv cc cs i a ra rm ha
          (fun t bt h1 h2 h3 => hcont t bt h1 (by omega) h3) hra hrm h0
      obtain ⟨m1, hm1⟩ : ∃ m1, rows.get? (i + d) = some m1 :=
        ⟨_, List.get?_eq_get (by omega : i + d < rows.length)⟩
      obtain ⟨m2, hm2⟩ : ∃ m2, rows.get? (i + d + 1) = some m2 :=
        ⟨_, List.get?_eq_get hlen2⟩
      have hc1 := hcont (i + d) m1 (by omega) (by omega) hm1
      have hc2 := hcont (i + d + 1) m2 (by omega) (by omega) hm2
      exact trunc_step sub ms mc rows pv pc cv cc cs (i + d) m1 m2 rm rb hm1 hm2
        (by rw [hc2.1, hc1.1]) (by rw [hc2.2, hc1.2]) hrm hrb hmid

theorem trunc_visit_run (sub ms mc : Nat) :
    ∀ (rows : List (String × String × String)) (V : String)
      (pc : Option String) (cv cc cs : Nat),
      (mc < cc ∨ ms = 0) →
      ∀ (j : Nat) (rj : SeqRow),
        (∀ t bt, t ≤ j → rows.get? t = some bt → bt.1 = V) →
        (sequence_numbers_go sub ms mc rows (some V) pc cv cc cs).get? j = some rj →
        rj.pure_slot = 0 := by
  intro rows
  induction rows with
  | nil => intro V pc cv cc cs _ j rj _ hj; simp [sequence_numbers_go] at hj
  | cons hd rest ih =>
      intro V pc cv cc cs hcc j rj hall hj
      obtain ⟨v, c, s⟩ := hd
      have hv : v = V := hall 0 (v, c, s) (Nat.zero_le j) rfl
      subst hv
      rcases seqStep_cases (some v) pc cv cc cs v c with
        ⟨h1, hst⟩ | ⟨h1, h2, hst⟩ | ⟨h1, h2, hst⟩
      · exact absurd rfl h1
      · -- new config within the same visit: counters (cv, cc + 1, 1)
        have htr : mc < cc + 1 ∨ ms < 1 := by
          rcases hcc with h | h
          · exact Or.inl (by omega)
          · exact Or.inr (by omega)
        cases j with
        | zero =>
            simp only [sequence_numbers_go, List.get?_cons_zero,
              Option.some.injEq] at hj
            rw [hst, seqEmit_mk_trunc sub ms mc v c s _ _ _ htr] at hj
            rw [← hj]
        | succ j =>
            simp only [sequence_numbers_go, List.get?_cons_succ] at hj
            rw [hst] at hj
            dsimp only at hj
            exact ih v (some c) cv (cc + 1) 1
              (by rcases hcc with h | h; exact Or.inl (by omega); exact Or.inr h)
              j rj
              (fun t bt h1 h3 => hall (t + 1) bt (by omega) (by simpa using h3))
              hj
      · -- same visit, same config: counters (cv, cc, cs + 1)
        have htr : mc < cc ∨ ms < cs + 1 := by
          rcases hcc with h | h
          · exact Or.inl h
          · exact Or.inr (by omega)
        cases j with
        | zero =>
            simp only [sequence_numbers_go, List.get?_cons_zero,
              Option.some.injEq] at hj
            rw [hst, seqEmit_mk_trunc sub ms mc v c s _ _ _ htr] at hj
            rw [← hj]
        | succ j =>
            simp only [sequence_numbers_go, List.get?_cons_succ] at hj
            rw [hst] at hj
            dsimp only at hj
            exact ih v (some c) cv cc (cs + 1) hcc j rj
              (fun t bt h1 h3 => hall (t + 1) bt (by omega) (by simpa using h3))
              hj

theorem trunc_group_start (sub ms mc : Nat) :
    ∀ (rows : List (String × String × String)) (pv pc : Option String)
      (cv cc cs i j : Nat) (a : String × String × String) (ra rj : SeqRow),
      i ≤ j →
      groupStartG pv pc rows i →
      rows.get? i = some a →
      (∀ t bt, i ≤ t → t ≤ j → rows.get? t = some bt → bt.1 = a.1) →
      (sequence_numbers_go sub ms mc rows pv pc cv cc cs).get? i = some ra →
      (sequence_numbers_go sub ms mc rows pv pc cv cc cs).get? j = some rj →
      ra.pure_slot = 0 → rj.pure_slot = 0 := by
  intro rows
  induction rows with
  | nil => intro pv pc cv cc cs i j a ra rj _ _ ha; simp at ha
  | cons hd rest ih =>
      intro pv pc cv cc cs i j a ra rj hij hgs ha hcont hra hrj h0
      obtain ⟨v, c, s⟩ := hd
      cases i with
      | zero =>
          have haa : (v, c, s) = a := Option.some.inj ha
          have hd12 := hgs (v, c, s) rfl
          simp only [sequence_numbers_go, List.get?_cons_zero,
            Option.some.injEq] at hra
          rcases seqStep_cases pv pc cv cc cs v c with
            ⟨hv, hst⟩ | ⟨hv, hc, hst⟩ | ⟨hv, hc, hst⟩
          · -- new visit: counters (cv + 1, 1, 1)
            rw [hst] at hra
            have htr : mc < 1 ∨ ms < 1 := by
              by_cases htr : mc < 1 ∨ ms < 1
              · exact htr
              · exfalso
                rw [seqEmit_mk_keep sub ms mc v c s _ _ _ htr] at hra
                rw [← hra] at h0
                simp at h0
            cases j with
            | zero =>
                simp only [sequence_numbers_go, List.get?_cons_zero,
                  Option.some.injEq] at hrj
                rw [hst, seqEmit_mk_trunc sub ms mc v c s _ _ _ htr] at hrj
                rw [← hrj]
            | succ j =>
                simp only [sequence_numbers_go, List.get?_cons_succ] at hrj
                rw [hst] at hrj
                dsimp only at hrj
                refine trunc_visit_run sub ms mc rest v (some c) (cv + 1) 1 1
                  ?_ j rj ?_ hrj
                · rcases htr with h | h
                  · exact Or.inl h
                  · exact Or.inr (by omega)
                · intro t bt h1 h3
                  have := hcont (t + 1) bt (by omega) (by omega) (by simpa using h3)
                  rw [this, ← haa]
          · -- same visit, new config: counters (cv, cc + 1, 1)
            rw [hst] at hra
            have htr : mc < cc + 1 ∨ ms < 1 := by
              by_cases htr : mc < cc + 1 ∨ ms < 1
              · exact htr
              · exfalso
                rw [seqEmit_mk_keep sub ms mc v c s _ _ _ htr] at hra
                rw [← hra] at h0
                simp at h0
            cases j with
            | zero =>
                simp only [sequence_numbers_go, List.get?_cons_zero,
                  Option.some.injEq] at hrj
                rw [hst, seqEmit_mk_trunc sub ms mc v c s _ _ _ htr] at hrj
                rw [← hrj]
            | succ j =>
                simp only [sequence_numbers_go, List.get?_cons_succ] at hrj
                rw [hst] at hrj
                dsimp only at hrj
                refine trunc_visit_run sub ms mc rest v (some c) cv (cc + 1) 1
                  ?_ j rj ?_ hrj
                · rcases htr with h | h
                  · exact Or.inl h
                  · exact Or.inr (by omega)
                · intro t bt h1 h3
                  have := hcont (t + 1) bt (by omega) (by omega) (by simpa using h3)
                  rw [this, ← haa]
          · -- same visit and config contradicts the group start
            exfalso
            rcases hd12 with h | h
            · exact h hv.symm
            · exact h hc.symm
      | succ i =>
          cases j with
          | zero => omega
          | succ j =>
              simp only [List.get?_cons_succ] at ha
              simp only [sequence_numbers_go, List.get?_cons_succ] at hra hrj
              have hgs' : groupStartG (some v) (some c) rest i := by
                cases i with
                | zero =>
                    obtain ⟨p, q, hp, hq, hpq⟩ := hgs
                    simp only [List.get?_cons_zero, Option.some.injEq] at hp
                    simp only [List.get?_cons_succ] at hq
                    intro q' hq'
                    rw [hq] at hq'
                    obtain rfl := Option.some.inj hq'
                    rw [← hp] at hpq
                    rcases hpq with h | h
                    · exact Or.inl (by simpa using h)
                    · exact Or.inr (by simpa using h)
                | succ t =>
                    obtain ⟨p, q, hp, hq, hpq⟩ := hgs
                    simp only [List.get?_cons_succ] at hp hq
                    exact ⟨p, q, hp, hq, hpq⟩
              exact ih (some v) (some c) _ _ _ i j a ra rj (by omega) hgs' ha
                (fun t bt h1 h2 h3 =>
                  hcont (t + 1) bt (by omega) (by omega) (by simpa using h3))
                hra hrj h0

/-- Claim C3: in a single pass, (1) the non-truncated `pure_config` values
of a fixed visit form exactly `{1, …, k}` for some `k ≤ maxconfig`;
(2) the non-truncated `pure_slot` values of a fixed (visit, config) pair
form exactly `{1, …, m}` for some `m ≤ maxslot`; (3) within a contiguous
run of rows of one (visit, config) group, once a row is truncated every
later row of the run is truncated; (4) within a contiguous run of rows of
one visit, if the first row of a (visit, config) group is truncated, every
later row of that visit run is truncated. -/
theorem dense_numbering (rows : List (String × String × String))
    (ms mc sub : Nat) (V C : String) :
    (∃ k, k ≤ mc ∧ ∀ n,
      n ∈ configVals V (sequence_numbers sub rows ms mc) ↔ 1 ≤ n ∧ n ≤ k) ∧
    (∃ m, m ≤ ms ∧ ∀ n,
      n ∈ slotVals V C (sequence_numbers sub rows ms mc) ↔ 1 ≤ n ∧ n ≤ m) ∧
    (∀ (i d : Nat) (a : String × String × String) (ra rb : SeqRow),
      rows.get? i = some a →
      (∀ t bt, i ≤ t → t ≤ i + d → rows.get? t = some bt →
        bt.1 = a.1 ∧ bt.2.1 = a.2.1) →
      (sequence_numbers sub rows ms mc).get? i = some ra →
      (sequence_numbers sub rows ms mc).get? (i + d) = some rb →
      ra.pure_slot = 0 → rb.pure_slot = 0) ∧
    (∀ (i j : Nat) (a : String × String × String) (ra rj : SeqRow),
      i ≤ j →
      groupStartG none none rows i →
      rows.get? i = some a →
      (∀ t bt, i ≤ t → t ≤ j → rows.get? t = some bt → bt.1 = a.1) →
      (sequence_numbers sub rows ms mc).get? i = some ra →
      (sequence_numbers sub rows ms mc).get? j = some rj →
      ra.pure_slot = 0 → rj.pure_slot = 0) := by
  refine ⟨?_, ?_, ?_, ?_⟩
  · apply dense_range
    · intro n hn
      refine ⟨?_, (cfg_upper sub ms mc rows none none 0 0 0 V n hn).1⟩
      exact cfg_lower sub ms mc rows none none 0 0 0 V n (Or.inl rfl) hn
    · intro n hn1 hn
      rcases cfg_dense sub ms mc rows none none 0 0 0 V n hn1 hn with h | ⟨h, _⟩
      · exact h
      · exact absurd h (by simp)
  · apply dense_range
    · intro n hn
      exact slot_upper sub ms mc rows none none 0 0 0 V C n hn
    · intro n hn1 hn
      rcases slot_dense sub ms mc rows none none 0 0 0 V C n hn1 hn with
        h | ⟨h, _⟩
      · exact h
      · exact absurd h (by simp)
  · intro i d a ra rb ha hcont hra hrb h0
    exact trunc_run sub ms mc d rows none none 0 0 0 i a ra rb ha hcont hra hrb h0
  · intro i j a ra rj hij hgs ha hcont hra hrj h0
    exact trunc_group_start sub ms mc rows none none 0 0 0 i j a ra rj hij hgs
      ha hcont hra hrj h0

/-- Witness for C3 at a concrete input: a `maxslot = 0` run truncates row 0
of a two-row group, and conjunct 3 propagates the truncation to row 1;
conjunct 1 also instantiates to the dense range of the same run. -/
theorem dense_numbering_witness :
    ((∃ k, k ≤ 9 ∧ ∀ n,
        n ∈ configVals "v" (sequence_numbers 1 [("v", "c", "sa"), ("v", "c", "sb")] 0 9) ↔
          1 ≤ n ∧ n ≤ k)) ∧
    (⟨"v", "c", "sb", 0, 0, 0, 0⟩ : SeqRow).pure_slot = 0 :=
  ⟨(dense_numbering [("v", "c", "sa"), ("v", "c", "sb")] 0 9 1 "v" "c").1,
   (dense_numbering [("v", "c", "sa"), ("v", "c", "sb")] 0 9 1 "v" "c").2.2.1
     0 1 ("v", "c", "sa") ⟨"v", "c", "sa", 0, 0, 0, 0⟩ ⟨"v", "c", "sb", 0, 0, 0, 0⟩
     (by decide)
     (by
       intro t bt h1 h2 h3
       interval_cases t <;>
         simp only [List.get?_cons_zero, List.get?_cons_succ,
           Option.some.injEq] at h3 <;>
         exact ⟨by rw [← h3], by rw [← h3]⟩)
     (by decide) (by decide) (by decide)⟩
